import Mathlib

/-!
Verification development for the wasm-chisel module rewriter.

The Rust sources under `src/libchisel` and `src/chisel` are shallowly
embedded below: parity-wasm's structural `Module` type becomes a Lean
structure over lists, machine integers become `Nat`/`Int` with explicit
wrap-arounds where Rust overflow semantics matter, fallible operations
return `Option`/`Except`, and Rust panics are modelled as `Option.none`.
External collaborators (file system, the wat text parser, the wasm-snip
back end) are parameters of the driver environment.

Wasm names are byte sequences; every name appearing in this development
is ASCII, so names are modelled as `List Nat` with an ASCII conversion
from string literals.
-/

set_option maxHeartbeats 1000000
set_option maxRecDepth 100000

namespace Chisel

/-- Bytes of a wasm name (all names used here are ASCII). -/
abbrev Name := List Nat

/-- ASCII conversion from a Lean string literal to wasm name bytes. -/
def ascii (s : String) : Name := s.toList.map Char.toNat

/-- parity-wasm `ValueType`. -/
inductive ValueType
  | I32
  | I64
  | F32
  | F64
deriving DecidableEq

/-- parity-wasm `FunctionType`: parameter types and an optional return type. -/
structure FunctionType where
  params : List ValueType
  ret : Option ValueType
deriving DecidableEq

/-- parity-wasm `ResizableLimits` together with the shared flag of `MemoryType`. -/
structure MemoryType where
  initial : Nat
  maximum : Option Nat
  shared : Bool
deriving DecidableEq

/-- `MemoryType::new(initial, maximum, shared)`. -/
def MemoryType.new (initial : Nat) (maximum : Option Nat) (shared : Bool) : MemoryType :=
  ⟨initial, maximum, shared⟩

/-- parity-wasm `TableType` (element type is always funcref in MVP). -/
structure TableType where
  initial : Nat
  maximum : Option Nat
deriving DecidableEq

/-- parity-wasm `GlobalType`. -/
structure GlobalType where
  content : ValueType
  isMutable : Bool
deriving DecidableEq

/-- parity-wasm `External`: the descriptor of an import entry. -/
inductive External
  | function (typeIdx : Nat)
  | table (t : TableType)
  | memory (m : MemoryType)
  | global (g : GlobalType)
deriving DecidableEq

/-- parity-wasm `ImportEntry`. -/
structure ImportEntry where
  module : Name
  field : Name
  external : External
deriving DecidableEq

/-- parity-wasm `Internal`: the reference held by an export entry. -/
inductive Internal
  | function (idx : Nat)
  | table (idx : Nat)
  | memory (idx : Nat)
  | global (idx : Nat)
deriving DecidableEq

/-- parity-wasm `ExportEntry`. -/
structure ExportEntry where
  field : Name
  internal : Internal
deriving DecidableEq

/-- `ExportEntry::new`. -/
def ExportEntry.new (field : Name) (internal : Internal) : ExportEntry :=
  ⟨field, internal⟩

/-- The subset of parity-wasm's `Instruction` enum needed by this
development: every floating-point opcode matched by `checkfloat`
(`src/libchisel/src/checkfloat.rs`), plus the integer opcodes appearing
in the deployer wrapper and the test modules.  Loads and stores carry
(align, offset); constants carry their immediate (raw bit pattern for
floats). -/
inductive Instruction
  | Unreachable
  | Nop
  | End
  | Call (idx : Nat)
  | GetLocal (idx : Nat)
  | SetLocal (idx : Nat)
  | I32Load (align offset : Nat)
  | I64Load (align offset : Nat)
  | F32Load (align offset : Nat)
  | F64Load (align offset : Nat)
  | I32Store (align offset : Nat)
  | I64Store (align offset : Nat)
  | F32Store (align offset : Nat)
  | F64Store (align offset : Nat)
  | I32Const (v : Int)
  | I64Const (v : Int)
  | F32Const (bits : Nat)
  | F64Const (bits : Nat)
  | I32Add
  | I32Sub
  | F32Eq
  | F32Ne
  | F32Lt
  | F32Gt
  | F32Le
  | F32Ge
  | F64Eq
  | F64Ne
  | F64Lt
  | F64Gt
  | F64Le
  | F64Ge
  | F32Abs
  | F32Neg
  | F32Ceil
  | F32Floor
  | F32Trunc
  | F32Nearest
  | F32Sqrt
  | F32Add
  | F32Sub
  | F32Mul
  | F32Div
  | F32Min
  | F32Max
  | F32Copysign
  | F64Abs
  | F64Neg
  | F64Ceil
  | F64Floor
  | F64Trunc
  | F64Nearest
  | F64Sqrt
  | F64Add
  | F64Sub
  | F64Mul
  | F64Div
  | F64Min
  | F64Max
  | F64Copysign
  | I32TruncSF32
  | I32TruncUF32
  | I32TruncSF64
  | I32TruncUF64
  | I64TruncSF32
  | I64TruncUF32
  | I64TruncSF64
  | I64TruncUF64
  | F32ConvertSI32
  | F32ConvertUI32
  | F32ConvertSI64
  | F32ConvertUI64
  | F64ConvertSI32
  | F64ConvertUI32
  | F64ConvertSI64
  | F64ConvertUI64
  | F32DemoteF64
  | F64PromoteF32
  | I32ReinterpretF32
  | I64ReinterpretF64
  | F32ReinterpretI32
  | F64ReinterpretI64

/-- Injective key of an instruction (constructor tag plus immediates);
used to derive decidable equality without a quadratic case split. -/
def Instruction.key : Instruction → Nat × Nat × Nat × Int
  | .Unreachable => (0, 0, 0, 0)
  | .Nop => (1, 0, 0, 0)
  | .End => (2, 0, 0, 0)
  | .Call i => (3, i, 0, 0)
  | .GetLocal i => (4, i, 0, 0)
  | .SetLocal i => (5, i, 0, 0)
  | .I32Load a o => (6, a, o, 0)
  | .I64Load a o => (7, a, o, 0)
  | .F32Load a o => (8, a, o, 0)
  | .F64Load a o => (9, a, o, 0)
  | .I32Store a o => (10, a, o, 0)
  | .I64Store a o => (11, a, o, 0)
  | .F32Store a o => (12, a, o, 0)
  | .F64Store a o => (13, a, o, 0)
  | .I32Const v => (14, 0, 0, v)
  | .I64Const v => (15, 0, 0, v)
  | .F32Const b => (16, b, 0, 0)
  | .F64Const b => (17, b, 0, 0)
  | .I32Add => (18, 0, 0, 0)
  | .I32Sub => (19, 0, 0, 0)
  | .F32Eq => (20, 0, 0, 0)
  | .F32Ne => (21, 0, 0, 0)
  | .F32Lt => (22, 0, 0, 0)
  | .F32Gt => (23, 0, 0, 0)
  | .F32Le => (24, 0, 0, 0)
  | .F32Ge => (25, 0, 0, 0)
  | .F64Eq => (26, 0, 0, 0)
  | .F64Ne => (27, 0, 0, 0)
  | .F64Lt => (28, 0, 0, 0)
  | .F64Gt => (29, 0, 0, 0)
  | .F64Le => (30, 0, 0, 0)
  | .F64Ge => (31, 0, 0, 0)
  | .F32Abs => (32, 0, 0, 0)
  | .F32Neg => (33, 0, 0, 0)
  | .F32Ceil => (34, 0, 0, 0)
  | .F32Floor => (35, 0, 0, 0)
  | .F32Trunc => (36, 0, 0, 0)
  | .F32Nearest => (37, 0, 0, 0)
  | .F32Sqrt => (38, 0, 0, 0)
  | .F32Add => (39, 0, 0, 0)
  | .F32Sub => (40, 0, 0, 0)
  | .F32Mul => (41, 0, 0, 0)
  | .F32Div => (42, 0, 0, 0)
  | .F32Min => (43, 0, 0, 0)
  | .F32Max => (44, 0, 0, 0)
  | .F32Copysign => (45, 0, 0, 0)
  | .F64Abs => (46, 0, 0, 0)
  | .F64Neg => (47, 0, 0, 0)
  | .F64Ceil => (48, 0, 0, 0)
  | .F64Floor => (49, 0, 0, 0)
  | .F64Trunc => (50, 0, 0, 0)
  | .F64Nearest => (51, 0, 0, 0)
  | .F64Sqrt => (52, 0, 0, 0)
  | .F64Add => (53, 0, 0, 0)
  | .F64Sub => (54, 0, 0, 0)
  | .F64Mul => (55, 0, 0, 0)
  | .F64Div => (56, 0, 0, 0)
  | .F64Min => (57, 0, 0, 0)
  | .F64Max => (58, 0, 0, 0)
  | .F64Copysign => (59, 0, 0, 0)
  | .I32TruncSF32 => (60, 0, 0, 0)
  | .I32TruncUF32 => (61, 0, 0, 0)
  | .I32TruncSF64 => (62, 0, 0, 0)
  | .I32TruncUF64 => (63, 0, 0, 0)
  | .I64TruncSF32 => (64, 0, 0, 0)
  | .I64TruncUF32 => (65, 0, 0, 0)
  | .I64TruncSF64 => (66, 0, 0, 0)
  | .I64TruncUF64 => (67, 0, 0, 0)
  | .F32ConvertSI32 => (68, 0, 0, 0)
  | .F32ConvertUI32 => (69, 0, 0, 0)
  | .F32ConvertSI64 => (70, 0, 0, 0)
  | .F32ConvertUI64 => (71, 0, 0, 0)
  | .F64ConvertSI32 => (72, 0, 0, 0)
  | .F64ConvertUI32 => (73, 0, 0, 0)
  | .F64ConvertSI64 => (74, 0, 0, 0)
  | .F64ConvertUI64 => (75, 0, 0, 0)
  | .F32DemoteF64 => (76, 0, 0, 0)
  | .F64PromoteF32 => (77, 0, 0, 0)
  | .I32ReinterpretF32 => (78, 0, 0, 0)
  | .I64ReinterpretF64 => (79, 0, 0, 0)
  | .F32ReinterpretI32 => (80, 0, 0, 0)
  | .F64ReinterpretI64 => (81, 0, 0, 0)

/-- Partial inverse of `Instruction.key`. -/
def Instruction.ofKey : Nat × Nat × Nat × Int → Option Instruction
  | (0, _, _, _) => some .Unreachable
  | (1, _, _, _) => some .Nop
  | (2, _, _, _) => some .End
  | (3, i, _, _) => some (.Call i)
  | (4, i, _, _) => some (.GetLocal i)
  | (5, i, _, _) => some (.SetLocal i)
  | (6, a, o, _) => some (.I32Load a o)
  | (7, a, o, _) => some (.I64Load a o)
  | (8, a, o, _) => some (.F32Load a o)
  | (9, a, o, _) => some (.F64Load a o)
  | (10, a, o, _) => some (.I32Store a o)
  | (11, a, o, _) => some (.I64Store a o)
  | (12, a, o, _) => some (.F32Store a o)
  | (13, a, o, _) => some (.F64Store a o)
  | (14, _, _, v) => some (.I32Const v)
  | (15, _, _, v) => some (.I64Const v)
  | (16, b, _, _) => some (.F32Const b)
  | (17, b, _, _) => some (.F64Const b)
  | (18, _, _, _) => some .I32Add
  | (19, _, _, _) => some .I32Sub
  | (20, _, _, _) => some .F32Eq
  | (21, _, _, _) => some .F32Ne
  | (22, _, _, _) => some .F32Lt
  | (23, _, _, _) => some .F32Gt
  | (24, _, _, _) => some .F32Le
  | (25, _, _, _) => some .F32Ge
  | (26, _, _, _) => some .F64Eq
  | (27, _, _, _) => some .F64Ne
  | (28, _, _, _) => some .F64Lt
  | (29, _, _, _) => some .F64Gt
  | (30, _, _, _) => some .F64Le
  | (31, _, _, _) => some .F64Ge
  | (32, _, _, _) => some .F32Abs
  | (33, _, _, _) => some .F32Neg
  | (34, _, _, _) => some .F32Ceil
  | (35, _, _, _) => some .F32Floor
  | (36, _, _, _) => some .F32Trunc
  | (37, _, _, _) => some .F32Nearest
  | (38, _, _, _) => some .F32Sqrt
  | (39, _, _, _) => some .F32Add
  | (40, _, _, _) => some .F32Sub
  | (41, _, _, _) => some .F32Mul
  | (42, _, _, _) => some .F32Div
  | (43, _, _, _) => some .F32Min
  | (44, _, _, _) => some .F32Max
  | (45, _, _, _) => some .F32Copysign
  | (46, _, _, _) => some .F64Abs
  | (47, _, _, _) => some .F64Neg
  | (48, _, _, _) => some .F64Ceil
  | (49, _, _, _) => some .F64Floor
  | (50, _, _, _) => some .F64Trunc
  | (51, _, _, _) => some .F64Nearest
  | (52, _, _, _) => some .F64Sqrt
  | (53, _, _, _) => some .F64Add
  | (54, _, _, _) => some .F64Sub
  | (55, _, _, _) => some .F64Mul
  | (56, _, _, _) => some .F64Div
  | (57, _, _, _) => some .F64Min
  | (58, _, _, _) => some .F64Max
  | (59, _, _, _) => some .F64Copysign
  | (60, _, _, _) => some .I32TruncSF32
  | (61, _, _, _) => some .I32TruncUF32
  | (62, _, _, _) => some .I32TruncSF64
  | (63, _, _, _) => some .I32TruncUF64
  | (64, _, _, _) => some .I64TruncSF32
  | (65, _, _, _) => some .I64TruncUF32
  | (66, _, _, _) => some .I64TruncSF64
  | (67, _, _, _) => some .I64TruncUF64
  | (68, _, _, _) => some .F32ConvertSI32
  | (69, _, _, _) => some .F32ConvertUI32
  | (70, _, _, _) => some .F32ConvertSI64
  | (71, _, _, _) => some .F32ConvertUI64
  | (72, _, _, _) => some .F64ConvertSI32
  | (73, _, _, _) => some .F64ConvertUI32
  | (74, _, _, _) => some .F64ConvertSI64
  | (75, _, _, _) => some .F64ConvertUI64
  | (76, _, _, _) => some .F32DemoteF64
  | (77, _, _, _) => some .F64PromoteF32
  | (78, _, _, _) => some .I32ReinterpretF32
  | (79, _, _, _) => some .I64ReinterpretF64
  | (80, _, _, _) => some .F32ReinterpretI32
  | (81, _, _, _) => some .F64ReinterpretI64
  | _ => none

theorem Instruction.ofKey_key : ∀ i : Instruction, Instruction.ofKey i.key = some i := by
  intro i
  cases i <;> rfl

instance : DecidableEq Instruction := fun a b =>
  if h : a.key = b.key then
    .isTrue (by
      have ha := Instruction.ofKey_key a
      rw [h, Instruction.ofKey_key b] at ha
      exact (Option.some.inj ha).symm)
  else
    .isFalse (fun hh => h (hh ▸ rfl))

/-- parity-wasm `Local`: a run of `count` locals of one value type. -/
structure LocalEntry where
  count : Nat
  valueType : ValueType
deriving DecidableEq

/-- parity-wasm `FuncBody`: local declarations and the instruction list
(terminated by `End`). -/
structure FuncBody where
  locals : List LocalEntry
  code : List Instruction
deriving DecidableEq

/-- parity-wasm `GlobalEntry`: a global's type and its init expression
(instructions terminated by `End`). -/
structure GlobalEntry where
  globalType : GlobalType
  initExpr : List Instruction
deriving DecidableEq

/-- parity-wasm `ElementSegment`. -/
structure ElementSegment where
  index : Nat
  offset : List Instruction
  members : List Nat
deriving DecidableEq

/-- parity-wasm `DataSegment`. -/
structure DataSegment where
  index : Nat
  offset : List Instruction
  value : List Nat
deriving DecidableEq

/-- parity-wasm `CustomSection`: a name and an opaque payload. -/
structure CustomSection where
  name : Name
  payload : List Nat
deriving DecidableEq

/-- `CustomSection::new`. -/
def CustomSection.new (name : Name) (payload : List Nat) : CustomSection :=
  ⟨name, payload⟩

/-- The parsed representation of the `name` custom section (parity-wasm
`NameSection`): optional module, function and local name subsections. -/
structure NameSec where
  moduleName : Option Name
  functionNames : Option (List (Nat × Name))
  localNames : Option (List (Nat × List (Nat × Name)))
deriving DecidableEq

/-- parity-wasm `Section`. -/
inductive Section
  | typeSec (types : List FunctionType)
  | importSec (entries : List ImportEntry)
  | functionSec (typeRefs : List Nat)
  | tableSec (entries : List TableType)
  | memorySec (entries : List MemoryType)
  | globalSec (entries : List GlobalEntry)
  | exportSec (entries : List ExportEntry)
  | startSec (idx : Nat)
  | elementSec (entries : List ElementSegment)
  | codeSec (bodies : List FuncBody)
  | dataSec (entries : List DataSegment)
  | custom (c : CustomSection)
  | name (n : NameSec)
deriving DecidableEq

/-- parity-wasm `Module`: an ordered sequence of sections. -/
structure Module where
  sections : List Section
deriving DecidableEq

/-- `Section::order()` (parity-wasm): the canonical ordering key used by
`Module::insert_section`. -/
def Section.order : Section → Nat
  | .custom _ => 0
  | .typeSec _ => 1
  | .importSec _ => 2
  | .functionSec _ => 3
  | .tableSec _ => 4
  | .memorySec _ => 5
  | .globalSec _ => 6
  | .exportSec _ => 7
  | .startSec _ => 8
  | .elementSec _ => 9
  | .codeSec _ => 11
  | .dataSec _ => 12
  | .name _ => 13

/-- `Module::type_section`: the first type section, if any. -/
def Module.typeSection (m : Module) : Option (List FunctionType) :=
  m.sections.findSome? fun s => match s with
    | .typeSec ts => some ts
    | _ => none

/-- `Module::import_section`: the first import section, if any. -/
def Module.importSection (m : Module) : Option (List ImportEntry) :=
  m.sections.findSome? fun s => match s with
    | .importSec es => some es
    | _ => none

/-- `Module::function_section`: the first function section, if any. -/
def Module.functionSection (m : Module) : Option (List Nat) :=
  m.sections.findSome? fun s => match s with
    | .functionSec fs => some fs
    | _ => none

/-- `Module::memory_section`: the first memory section, if any. -/
def Module.memorySection (m : Module) : Option (List MemoryType) :=
  m.sections.findSome? fun s => match s with
    | .memorySec es => some es
    | _ => none

/-- `Module::export_section`: the first export section, if any. -/
def Module.exportSection (m : Module) : Option (List ExportEntry) :=
  m.sections.findSome? fun s => match s with
    | .exportSec es => some es
    | _ => none

/-- `Module::start_section`: the function index held by the first start
section, if any. -/
def Module.startSection (m : Module) : Option Nat :=
  m.sections.findSome? fun s => match s with
    | .startSec i => some i
    | _ => none

/-- `Module::code_section`: the first code section, if any. -/
def Module.codeSection (m : Module) : Option (List FuncBody) :=
  m.sections.findSome? fun s => match s with
    | .codeSec bs => some bs
    | _ => none

/-- `Module::clear_start_section`: remove every start section. -/
def Module.clearStartSection (m : Module) : Module :=
  ⟨m.sections.filter fun s => match s with
    | .startSec _ => false
    | _ => true⟩

/-- The section predicate shared by the names lookup and
`custom_section_index_for`: a custom section with the given name, a
parsed name section counting as the name `name`. -/
def secMatchesName (nm : Name) (s : Section) : Bool :=
  match s with
  | .custom c => decide (c.name = nm)
  | .name _ => decide (nm = ascii "name")
  | _ => false

/-- `Module::has_names_section` (also the §4.1 lookup "is there a names
section?"): a custom section named `name` exists, in raw or parsed
representation. -/
def Module.hasNamesSection (m : Module) : Bool :=
  m.sections.any (secMatchesName (ascii "name"))

/-- `Module::insert_section` (parity-wasm): insert a section at its
canonical position; fails (`Error::DuplicatedSections`, modelled as
`none`) when a section with the same ordering key already exists. -/
def Module.insertSection (m : Module) (s : Section) : Option Module :=
  if m.sections.any fun t => t.order = s.order then none
  else
    match m.sections.findIdx? fun t => s.order < t.order with
    | some i => some ⟨m.sections.insertIdx i s⟩
    | none => some ⟨m.sections ++ [s]⟩

/-!
## Binary codec

The standard wasm binary encoding of the structures above, as read and
written by parity-wasm (`Module::from_bytes` / `Module::to_bytes`).
Modelled from the spec: the codec itself lives in the external
parity-wasm crate (only re-exported from `src/libchisel/src/lib.rs`), so
it is reproduced here from the spec's description of the standard binary
format (§4.1, §6): magic and version, then a sequence of sections, each
an id byte, a LEB128 payload size and the payload.  Serializers emit
canonical (shortest) LEB128.
-/

/-- Unsigned LEB128 worker, structurally recursive on fuel so that the
encoder reduces definitionally (the fuel is always sufficient). -/
def ulebGo : Nat → Nat → List Nat
  | 0, n => [n]
  | fuel + 1, n => if n < 128 then [n] else (128 + n % 128) :: ulebGo fuel (n / 128)

/-- Unsigned LEB128 encoding of a natural number. -/
def uleb (n : Nat) : List Nat :=
  ulebGo (n + 1) n

/-- Parse an unsigned LEB128 number; returns the value and the rest. -/
def pULeb : List Nat → Option (Nat × List Nat)
  | [] => none
  | b :: rest =>
    if b < 128 then some (b, rest)
    else
      match pULeb rest with
      | some (n, r) => some ((b - 128) + 128 * n, r)
      | none => none

theorem pULeb_ulebGo (fuel : Nat) :
    ∀ n r, n < fuel → pULeb (ulebGo fuel n ++ r) = some (n, r) := by
  induction fuel with
  | zero => intro n r h; omega
  | succ fuel ih =>
    intro n r hf
    by_cases h : n < 128
    · simp [ulebGo, h, pULeb]
    · simp only [ulebGo, h, if_false, List.cons_append, pULeb]
      have h2 : ¬ (128 + n % 128 < 128) := by omega
      simp only [h2, if_false]
      simp only [ih (n / 128) r (by omega)]
      rw [show 128 + n % 128 - 128 + 128 * (n / 128) = n from by omega]

theorem pULeb_uleb (n : Nat) (r : List Nat) : pULeb (uleb n ++ r) = some (n, r) :=
  pULeb_ulebGo (n + 1) n r (by omega)

/-- Signed LEB128 worker (`%` and `/` on `Int` are the Euclidean
operations, so `n / 128` is the arithmetic shift); structurally
recursive on fuel so that the encoder reduces definitionally. -/
def slebGo : Nat → Int → List Nat
  | 0, n => [(n % 128).toNat]
  | fuel + 1, n =>
    if -64 ≤ n ∧ n < 64 then [(n % 128).toNat]
    else (128 + (n % 128).toNat) :: slebGo fuel (n / 128)

/-- Signed LEB128 encoding of an integer. -/
def sleb (n : Int) : List Nat :=
  slebGo (n.natAbs + 1) n

/-- Parse a signed LEB128 number; returns the value and the rest. -/
def pSLeb : List Nat → Option (Int × List Nat)
  | [] => none
  | b :: rest =>
    if b < 128 then
      some (if b < 64 then ((b : Int), rest) else ((b : Int) - 128, rest))
    else
      match pSLeb rest with
      | some (n, r) => some ((b : Int) - 128 + 128 * n, r)
      | none => none

theorem pSLeb_slebGo (fuel : Nat) :
    ∀ n : Int, n.natAbs < fuel → ∀ r, pSLeb (slebGo fuel n ++ r) = some (n, r) := by
  induction fuel with
  | zero => intro n hk r; omega
  | succ k ih =>
    intro n hk r
    by_cases h : -64 ≤ n ∧ n < 64
    · simp only [slebGo, h, if_true, List.cons_append, List.nil_append, pSLeb]
      have h0 : 0 ≤ n % 128 := by omega
      have h1 : (n % 128).toNat < 128 := by omega
      simp only [h1, if_true]
      by_cases hpos : 0 ≤ n
      · have h2 : (n % 128).toNat < 64 := by omega
        simp only [h2, if_true]
        congr 2
        omega
      · have h2 : ¬ ((n % 128).toNat < 64) := by omega
        simp only [h2, if_false]
        congr 2
        omega
    · simp only [slebGo, h, if_false, List.cons_append, pSLeb]
      have h1 : ¬ (128 + (n % 128).toNat < 128) := by omega
      simp only [h1, if_false]
      have hlt : (n / 128).natAbs < n.natAbs := by omega
      simp only [ih (n / 128) (by omega)]
      rw [show (((128 + (n % 128).toNat : Nat) : Int)) - 128 + 128 * (n / 128) = n from by omega]

theorem pSLeb_sleb (n : Int) (r : List Nat) : pSLeb (sleb n ++ r) = some (n, r) :=
  pSLeb_slebGo (n.natAbs + 1) n (by omega) r

/-- Fixed-width 4-byte little-endian encoding (used for f32 bit patterns
and for the deployer's trailing length word). -/
def le4 (n : Nat) : List Nat :=
  [n % 256, n / 256 % 256, n / 65536 % 256, n / 16777216]

/-- Parse 4 little-endian bytes. -/
def pLe4 : List Nat → Option (Nat × List Nat)
  | b0 :: b1 :: b2 :: b3 :: rest =>
    some (b0 + 256 * b1 + 65536 * b2 + 16777216 * b3, rest)
  | _ => none

theorem pLe4_le4 (n : Nat) (r : List Nat) : pLe4 (le4 n ++ r) = some (n, r) := by
  simp only [le4, List.cons_append, List.nil_append, pLe4]
  congr 2
  omega

/-- Fixed-width 8-byte little-endian encoding (f64 bit patterns). -/
def le8 (n : Nat) : List Nat :=
  [n % 256, n / 256 % 256, n / 65536 % 256, n / 16777216 % 256,
   n / 4294967296 % 256, n / 1099511627776 % 256, n / 281474976710656 % 256,
   n / 72057594037927936]

/-- Parse 8 little-endian bytes. -/
def pLe8 : List Nat → Option (Nat × List Nat)
  | b0 :: b1 :: b2 :: b3 :: b4 :: b5 :: b6 :: b7 :: rest =>
    some (b0 + 256 * b1 + 65536 * b2 + 16777216 * b3 + 4294967296 * b4 +
      1099511627776 * b5 + 281474976710656 * b6 + 72057594037927936 * b7, rest)
  | _ => none

theorem pLe8_le8 (n : Nat) (r : List Nat) : pLe8 (le8 n ++ r) = some (n, r) := by
  simp only [le8, List.cons_append, List.nil_append, pLe8]
  congr 2
  omega

/-- Concatenation of the serializations of a list's elements. -/
def cmap (s : α → List Nat) : List α → List Nat
  | [] => []
  | x :: xs => s x ++ cmap s xs

/-- Parse `n` items with the item parser `p`. -/
def pN (p : List Nat → Option (α × List Nat)) : Nat → List Nat → Option (List α × List Nat)
  | 0, bs => some ([], bs)
  | n + 1, bs =>
    match p bs with
    | some (x, r) =>
      match pN p n r with
      | some (xs, r2) => some (x :: xs, r2)
      | none => none
    | none => none

theorem pN_cmap (p : List Nat → Option (α × List Nat)) (s : α → List Nat)
    (xs : List α) (r : List Nat)
    (h : ∀ x ∈ xs, ∀ r2, p (s x ++ r2) = some (x, r2)) :
    pN p xs.length (cmap s xs ++ r) = some (xs, r) := by
  induction xs with
  | nil => simp [cmap, pN]
  | cons x xs ih =>
    have hx := h x (by simp) (cmap s xs ++ r)
    have hrest := ih (fun y hy r2 => h y (by simp [hy]) r2)
    simp only [cmap, List.append_assoc, List.length_cons, pN, hx, hrest]

/-- A counted vector: LEB128 count then the items. -/
def sVec (s : α → List Nat) (xs : List α) : List Nat :=
  uleb xs.length ++ cmap s xs

/-- Parse a counted vector. -/
def pVec (p : List Nat → Option (α × List Nat)) (bs : List Nat) :
    Option (List α × List Nat) :=
  match pULeb bs with
  | some (n, r) => pN p n r
  | none => none

theorem pVec_sVec (p : List Nat → Option (α × List Nat)) (s : α → List Nat)
    (xs : List α) (r : List Nat)
    (h : ∀ x ∈ xs, ∀ r2, p (s x ++ r2) = some (x, r2)) :
    pVec p (sVec s xs ++ r) = some (xs, r) := by
  simp only [sVec, List.append_assoc, pVec]
  rw [pULeb_uleb]
  exact pN_cmap p s xs r h

/-- A length-prefixed byte string (wasm names, custom payload framing). -/
def sBytes (bs : List Nat) : List Nat := uleb bs.length ++ bs

/-- Parse a length-prefixed byte string. -/
def pBytes (bs : List Nat) : Option (List Nat × List Nat) :=
  match pULeb bs with
  | some (n, r) => if n ≤ r.length then some (r.take n, r.drop n) else none
  | none => none

theorem pBytes_sBytes (xs : List Nat) (r : List Nat) :
    pBytes (sBytes xs ++ r) = some (xs, r) := by
  simp only [sBytes, List.append_assoc, pBytes]
  rw [pULeb_uleb]
  simp [List.take_append, List.drop_append]

/-- Serialize one instruction (standard wasm opcodes). -/
def sInstr : Instruction → List Nat
  | .Unreachable => [0]
  | .Nop => [1]
  | .End => [11]
  | .Call i => 16 :: uleb i
  | .GetLocal i => 32 :: uleb i
  | .SetLocal i => 33 :: uleb i
  | .I32Load a o => 40 :: uleb a ++ uleb o
  | .I64Load a o => 41 :: uleb a ++ uleb o
  | .F32Load a o => 42 :: uleb a ++ uleb o
  | .F64Load a o => 43 :: uleb a ++ uleb o
  | .I32Store a o => 54 :: uleb a ++ uleb o
  | .I64Store a o => 55 :: uleb a ++ uleb o
  | .F32Store a o => 56 :: uleb a ++ uleb o
  | .F64Store a o => 57 :: uleb a ++ uleb o
  | .I32Const v => 65 :: sleb v
  | .I64Const v => 66 :: sleb v
  | .F32Const b => 67 :: le4 b
  | .F64Const b => 68 :: le8 b
  | .I32Add => [106]
  | .I32Sub => [107]
  | .F32Eq => [91]
  | .F32Ne => [92]
  | .F32Lt => [93]
  | .F32Gt => [94]
  | .F32Le => [95]
  | .F32Ge => [96]
  | .F64Eq => [97]
  | .F64Ne => [98]
  | .F64Lt => [99]
  | .F64Gt => [100]
  | .F64Le => [101]
  | .F64Ge => [102]
  | .F32Abs => [139]
  | .F32Neg => [140]
  | .F32Ceil => [141]
  | .F32Floor => [142]
  | .F32Trunc => [143]
  | .F32Nearest => [144]
  | .F32Sqrt => [145]
  | .F32Add => [146]
  | .F32Sub => [147]
  | .F32Mul => [148]
  | .F32Div => [149]
  | .F32Min => [150]
  | .F32Max => [151]
  | .F32Copysign => [152]
  | .F64Abs => [153]
  | .F64Neg => [154]
  | .F64Ceil => [155]
  | .F64Floor => [156]
  | .F64Trunc => [157]
  | .F64Nearest => [158]
  | .F64Sqrt => [159]
  | .F64Add => [160]
  | .F64Sub => [161]
  | .F64Mul => [162]
  | .F64Div => [163]
  | .F64Min => [164]
  | .F64Max => [165]
  | .F64Copysign => [166]
  | .I32TruncSF32 => [168]
  | .I32TruncUF32 => [169]
  | .I32TruncSF64 => [170]
  | .I32TruncUF64 => [171]
  | .I64TruncSF32 => [174]
  | .I64TruncUF32 => [175]
  | .I64TruncSF64 => [176]
  | .I64TruncUF64 => [177]
  | .F32ConvertSI32 => [178]
  | .F32ConvertUI32 => [179]
  | .F32ConvertSI64 => [180]
  | .F32ConvertUI64 => [181]
  | .F32DemoteF64 => [182]
  | .F64ConvertSI32 => [183]
  | .F64ConvertUI32 => [184]
  | .F64ConvertSI64 => [185]
  | .F64ConvertUI64 => [186]
  | .F64PromoteF32 => [187]
  | .I32ReinterpretF32 => [188]
  | .I64ReinterpretF64 => [189]
  | .F32ReinterpretI32 => [190]
  | .F64ReinterpretI64 => [191]

/-- Parse one instruction immediate of LEB/LEB shape and build the
load/store instruction via `mk`. -/
def pMemArg (mk : Nat → Nat → Instruction) (bs : List Nat) :
    Option (Instruction × List Nat) :=
  match pULeb bs with
  | some (a, r) =>
    match pULeb r with
    | some (o, r2) => some (mk a o, r2)
    | none => none
  | none => none

/-- Parse one instruction. -/
def pInstr : List Nat → Option (Instruction × List Nat)
  | [] => none
  | b :: bs =>
    match b with
    | 0 => some (.Unreachable, bs)
    | 1 => some (.Nop, bs)
    | 11 => some (.End, bs)
    | 16 =>
      match pULeb bs with
      | some (i, r) => some (.Call i, r)
      | none => none
    | 32 =>
      match pULeb bs with
      | some (i, r) => some (.GetLocal i, r)
      | none => none
    | 33 =>
      match pULeb bs with
      | some (i, r) => some (.SetLocal i, r)
      | none => none
    | 40 => pMemArg .I32Load bs
    | 41 => pMemArg .I64Load bs
    | 42 => pMemArg .F32Load bs
    | 43 => pMemArg .F64Load bs
    | 54 => pMemArg .I32Store bs
    | 55 => pMemArg .I64Store bs
    | 56 => pMemArg .F32Store bs
    | 57 => pMemArg .F64Store bs
    | 65 =>
      match pSLeb bs with
      | some (v, r) => some (.I32Const v, r)
      | none => none
    | 66 =>
      match pSLeb bs with
      | some (v, r) => some (.I64Const v, r)
      | none => none
    | 67 =>
      match pLe4 bs with
      | some (v, r) => some (.F32Const v, r)
      | none => none
    | 68 =>
      match pLe8 bs with
      | some (v, r) => some (.F64Const v, r)
      | none => none
    | 106 => some (.I32Add, bs)
    | 107 => some (.I32Sub, bs)
    | 91 => some (.F32Eq, bs)
    | 92 => some (.F32Ne, bs)
    | 93 => some (.F32Lt, bs)
    | 94 => some (.F32Gt, bs)
    | 95 => some (.F32Le, bs)
    | 96 => some (.F32Ge, bs)
    | 97 => some (.F64Eq, bs)
    | 98 => some (.F64Ne, bs)
    | 99 => some (.F64Lt, bs)
    | 100 => some (.F64Gt, bs)
    | 101 => some (.F64Le, bs)
    | 102 => some (.F64Ge, bs)
    | 139 => some (.F32Abs, bs)
    | 140 => some (.F32Neg, bs)
    | 141 => some (.F32Ceil, bs)
    | 142 => some (.F32Floor, bs)
    | 143 => some (.F32Trunc, bs)
    | 144 => some (.F32Nearest, bs)
    | 145 => some (.F32Sqrt, bs)
    | 146 => some (.F32Add, bs)
    | 147 => some (.F32Sub, bs)
    | 148 => some (.F32Mul, bs)
    | 149 => some (.F32Div, bs)
    | 150 => some (.F32Min, bs)
    | 151 => some (.F32Max, bs)
    | 152 => some (.F32Copysign, bs)
    | 153 => some (.F64Abs, bs)
    | 154 => some (.F64Neg, bs)
    | 155 => some (.F64Ceil, bs)
    | 156 => some (.F64Floor, bs)
    | 157 => some (.F64Trunc, bs)
    | 158 => some (.F64Nearest, bs)
    | 159 => some (.F64Sqrt, bs)
    | 160 => some (.F64Add, bs)
    | 161 => some (.F64Sub, bs)
    | 162 => some (.F64Mul, bs)
    | 163 => some (.F64Div, bs)
    | 164 => some (.F64Min, bs)
    | 165 => some (.F64Max, bs)
    | 166 => some (.F64Copysign, bs)
    | 168 => some (.I32TruncSF32, bs)
    | 169 => some (.I32TruncUF32, bs)
    | 170 => some (.I32TruncSF64, bs)
    | 171 => some (.I32TruncUF64, bs)
    | 174 => some (.I64TruncSF32, bs)
    | 175 => some (.I64TruncUF32, bs)
    | 176 => some (.I64TruncSF64, bs)
    | 177 => some (.I64TruncUF64, bs)
    | 178 => some (.F32ConvertSI32, bs)
    | 179 => some (.F32ConvertUI32, bs)
    | 180 => some (.F32ConvertSI64, bs)
    | 181 => some (.F32ConvertUI64, bs)
    | 182 => some (.F32DemoteF64, bs)
    | 183 => some (.F64ConvertSI32, bs)
    | 184 => some (.F64ConvertUI32, bs)
    | 185 => some (.F64ConvertSI64, bs)
    | 186 => some (.F64ConvertUI64, bs)
    | 187 => some (.F64PromoteF32, bs)
    | 188 => some (.I32ReinterpretF32, bs)
    | 189 => some (.I64ReinterpretF64, bs)
    | 190 => some (.F32ReinterpretI32, bs)
    | 191 => some (.F64ReinterpretI64, bs)
    | _ => none

theorem pInstr_sInstr (i : Instruction) (r : List Nat) :
    pInstr (sInstr i ++ r) = some (i, r) := by
  cases i <;>
    simp [sInstr, pInstr, pMemArg, pULeb_uleb, pSLeb_sleb, pLe4_le4, pLe8_le8]

/-- An instruction list in the form produced by the wasm decoder: a
single terminal `End` as the last element (parity-wasm's
`Instructions::deserialize` reads until the terminal opcode; the
instruction subset here contains no block instructions, so the terminal
is the first `End`). -/
def wellEnded : List Instruction → Bool
  | [] => false
  | [i] => i = .End
  | i :: rest => decide (i ≠ Instruction.End) && wellEnded rest

/-- Parse instructions until the terminal `End` (inclusive), with fuel. -/
def pInstrs : Nat → List Nat → Option (List Instruction × List Nat)
  | 0, _ => none
  | fuel + 1, bs =>
    match pInstr bs with
    | some (i, r) =>
      if i = .End then some ([.End], r)
      else
        match pInstrs fuel r with
        | some (is, r2) => some (i :: is, r2)
        | none => none
    | none => none

theorem sInstr_length_pos (i : Instruction) : 1 ≤ (sInstr i).length := by
  cases i <;> simp [sInstr]

theorem cmap_length_ge (is : List Instruction) :
    is.length ≤ (cmap sInstr is).length := by
  induction is with
  | nil => simp [cmap]
  | cons i is ih =>
    simp only [cmap, List.length_append, List.length_cons]
    have := sInstr_length_pos i
    omega

theorem pInstrs_cmap (is : List Instruction) (r : List Nat) (fuel : Nat)
    (hw : wellEnded is) (hf : is.length ≤ fuel) :
    pInstrs fuel (cmap sInstr is ++ r) = some (is, r) := by
  induction is generalizing fuel r with
  | nil => simp [wellEnded] at hw
  | cons i is ih =>
    match fuel, hf with
    | fuel + 1, hf =>
      cases is with
      | nil =>
        simp only [wellEnded, decide_eq_true_eq] at hw
        subst hw
        simp [cmap, pInstrs, pInstr_sInstr]
      | cons j js =>
        simp only [wellEnded, Bool.and_eq_true, decide_eq_true_eq] at hw
        simp only [cmap, List.append_assoc, pInstrs, pInstr_sInstr]
        have hne : ¬ (i = Instruction.End) := hw.1
        simp only [hne, if_false]
        have hrec : pInstrs fuel (cmap sInstr (j :: js) ++ r) = some (j :: js, r) := by
          apply ih <;> first
          | exact hw.2
          | (simp at hf ⊢; omega)
        simp only [cmap, List.append_assoc] at hrec
        simp only [hrec]

theorem pInstrs_wellEnded (fuel : Nat) (bs : List Nat) (is : List Instruction)
    (r : List Nat) (h : pInstrs fuel bs = some (is, r)) : wellEnded is := by
  induction fuel generalizing bs is r with
  | zero => simp [pInstrs] at h
  | succ fuel ih =>
    simp only [pInstrs] at h
    cases hp : pInstr bs with
    | none => rw [hp] at h; simp at h
    | some p =>
      obtain ⟨i, r1⟩ := p
      rw [hp] at h
      by_cases hi : i = .End
      · simp only [hi, if_true] at h
        cases h
        rfl
      · simp only [hi, if_false] at h
        cases hq : pInstrs fuel r1 with
        | none => rw [hq] at h; simp at h
        | some q =>
          obtain ⟨is1, r2⟩ := q
          rw [hq] at h
          simp only [Option.some.injEq, Prod.mk.injEq] at h
          obtain ⟨h1, h2⟩ := h
          subst h1
          have hw := ih r1 is1 r2 hq
          cases is1 with
          | nil => simp [wellEnded] at hw
          | cons j js => simp [wellEnded, hi, hw]

/-- Value type encoding (i32 `0x7f`, i64 `0x7e`, f32 `0x7d`, f64 `0x7c`). -/
def sValueType : ValueType → List Nat
  | .I32 => [127]
  | .I64 => [126]
  | .F32 => [125]
  | .F64 => [124]

/-- Parse a value type. -/
def pValueType : List Nat → Option (ValueType × List Nat)
  | 127 :: r => some (.I32, r)
  | 126 :: r => some (.I64, r)
  | 125 :: r => some (.F32, r)
  | 124 :: r => some (.F64, r)
  | _ => none

theorem pValueType_sValueType (v : ValueType) (r : List Nat) :
    pValueType (sValueType v ++ r) = some (v, r) := by
  cases v <;> rfl

/-- Function type: form byte `0x60`, parameter vector, result vector
(zero or one types in the MVP). -/
def sFuncType (t : FunctionType) : List Nat :=
  96 :: sVec sValueType t.params ++
    (match t.ret with
     | none => [0]
     | some v => 1 :: sValueType v)

/-- Parse a function type. -/
def pFuncType (bs : List Nat) : Option (FunctionType × List Nat) :=
  match bs with
  | 96 :: r =>
    match pVec pValueType r with
    | some (ps, r2) =>
      match r2 with
      | 0 :: r3 => some (⟨ps, none⟩, r3)
      | 1 :: r3 =>
        match pValueType r3 with
        | some (v, r4) => some (⟨ps, some v⟩, r4)
        | none => none
      | _ => none
    | none => none
  | _ => none

theorem pFuncType_sFuncType (t : FunctionType) (r : List Nat) :
    pFuncType (sFuncType t ++ r) = some (t, r) := by
  obtain ⟨ps, ret⟩ := t
  simp only [sFuncType, List.cons_append, List.append_assoc, pFuncType]
  rw [pVec_sVec pValueType sValueType ps _ (fun x _ r2 => pValueType_sValueType x r2)]
  cases ret with
  | none => rfl
  | some v =>
    simp only [List.cons_append]
    simp [pValueType_sValueType]

/-- Resizable limits with the shared flag (parity-wasm encodes flag `0`
for no maximum, `1` for a maximum, `3` for shared with maximum). -/
def sLimits (initial : Nat) (maximum : Option Nat) (shared : Bool) : List Nat :=
  (if shared then [3] else if maximum.isSome then [1] else [0]) ++
    uleb initial ++
    (match maximum with
     | some m => uleb m
     | none => [])

/-- Parse memory limits (with shared flag). -/
def pMemLimits (bs : List Nat) : Option (MemoryType × List Nat) :=
  match bs with
  | 0 :: r =>
    match pULeb r with
    | some (i, r2) => some (⟨i, none, false⟩, r2)
    | none => none
  | 1 :: r =>
    match pULeb r with
    | some (i, r2) =>
      match pULeb r2 with
      | some (m, r3) => some (⟨i, some m, false⟩, r3)
      | none => none
    | none => none
  | 3 :: r =>
    match pULeb r with
    | some (i, r2) =>
      match pULeb r2 with
      | some (m, r3) => some (⟨i, some m, true⟩, r3)
      | none => none
    | none => none
  | _ => none

/-- Memory type serialization. -/
def sMemoryType (m : MemoryType) : List Nat :=
  sLimits m.initial m.maximum m.shared

theorem pMemLimits_sMemoryType (m : MemoryType) (r : List Nat)
    (h : m.shared = true → m.maximum.isSome) :
    pMemLimits (sMemoryType m ++ r) = some (m, r) := by
  obtain ⟨i, mx, sh⟩ := m
  cases sh with
  | false =>
    cases mx with
    | none => simp [sMemoryType, sLimits, pMemLimits, pULeb_uleb]
    | some m =>
      simp [sMemoryType, sLimits, pMemLimits, pULeb_uleb]
  | true =>
    cases mx with
    | none => simp at h
    | some m =>
      simp [sMemoryType, sLimits, pMemLimits, pULeb_uleb]

/-- Table type: element type funcref (`0x70`) then limits (never shared). -/
def sTableType (t : TableType) : List Nat :=
  112 :: sLimits t.initial t.maximum false

/-- Parse a table type. -/
def pTableType (bs : List Nat) : Option (TableType × List Nat) :=
  match bs with
  | 112 :: r =>
    match r with
    | 0 :: r2 =>
      match pULeb r2 with
      | some (i, r3) => some (⟨i, none⟩, r3)
      | none => none
    | 1 :: r2 =>
      match pULeb r2 with
      | some (i, r3) =>
        match pULeb r3 with
        | some (m, r4) => some (⟨i, some m⟩, r4)
        | none => none
      | none => none
    | _ => none
  | _ => none

theorem pTableType_sTableType (t : TableType) (r : List Nat) :
    pTableType (sTableType t ++ r) = some (t, r) := by
  obtain ⟨i, mx⟩ := t
  cases mx with
  | none => simp [sTableType, sLimits, pTableType, pULeb_uleb]
  | some m =>
    simp [sTableType, sLimits, pTableType, pULeb_uleb]

/-- Global type: content type then mutability byte. -/
def sGlobalType (g : GlobalType) : List Nat :=
  sValueType g.content ++ [if g.isMutable then 1 else 0]

/-- Parse a global type. -/
def pGlobalType (bs : List Nat) : Option (GlobalType × List Nat) :=
  match pValueType bs with
  | some (v, r) =>
    match r with
    | 0 :: r2 => some (⟨v, false⟩, r2)
    | 1 :: r2 => some (⟨v, true⟩, r2)
    | _ => none
  | none => none

theorem pGlobalType_sGlobalType (g : GlobalType) (r : List Nat) :
    pGlobalType (sGlobalType g ++ r) = some (g, r) := by
  obtain ⟨v, mu⟩ := g
  simp only [sGlobalType, List.append_assoc, List.cons_append, List.nil_append, pGlobalType]
  rw [pValueType_sValueType]
  cases mu <;> rfl

/-- External descriptor of an import: kind byte then contents. -/
def sExternal : External → List Nat
  | .function t => 0 :: uleb t
  | .table t => 1 :: sTableType t
  | .memory m => 2 :: sMemoryType m
  | .global g => 3 :: sGlobalType g

/-- Parse an external descriptor. -/
def pExternal (bs : List Nat) : Option (External × List Nat) :=
  match bs with
  | 0 :: r =>
    match pULeb r with
    | some (t, r2) => some (.function t, r2)
    | none => none
  | 1 :: r =>
    match pTableType r with
    | some (t, r2) => some (.table t, r2)
    | none => none
  | 2 :: r =>
    match pMemLimits r with
    | some (m, r2) => some (.memory m, r2)
    | none => none
  | 3 :: r =>
    match pGlobalType r with
    | some (g, r2) => some (.global g, r2)
    | none => none
  | _ => none

/-- Shared-flag soundness for an external descriptor (a shared imported
memory must carry a maximum, as in any decodable module). -/
def externalWF : External → Bool
  | .memory m => !m.shared || m.maximum.isSome
  | _ => true

theorem pExternal_sExternal (e : External) (r : List Nat) (h : externalWF e) :
    pExternal (sExternal e ++ r) = some (e, r) := by
  cases e with
  | function t => simp [sExternal, pExternal, pULeb_uleb]
  | table t => simp [sExternal, pExternal, pTableType_sTableType]
  | memory m =>
    simp only [externalWF, Bool.or_eq_true, Bool.not_eq_true'] at h
    simp only [sExternal, List.cons_append, pExternal]
    rw [pMemLimits_sMemoryType m r (fun hs => by
      cases h with
      | inl h0 => rw [hs] at h0; cases h0
      | inr h0 => exact h0)]
  | global g => simp [sExternal, pExternal, pGlobalType_sGlobalType]

/-- Import entry: module name, field name, external descriptor. -/
def sImportEntry (e : ImportEntry) : List Nat :=
  sBytes e.module ++ sBytes e.field ++ sExternal e.external

/-- Parse an import entry. -/
def pImportEntry (bs : List Nat) : Option (ImportEntry × List Nat) :=
  match pBytes bs with
  | some (m, r) =>
    match pBytes r with
    | some (f, r2) =>
      match pExternal r2 with
      | some (e, r3) => some (⟨m, f, e⟩, r3)
      | none => none
    | none => none
  | none => none

theorem pImportEntry_sImportEntry (e : ImportEntry) (r : List Nat)
    (h : externalWF e.external) :
    pImportEntry (sImportEntry e ++ r) = some (e, r) := by
  obtain ⟨m, f, ex⟩ := e
  have h1 := pExternal_sExternal ex r h
  simp only [sImportEntry, List.append_assoc, pImportEntry, pBytes_sBytes, h1]

/-- Internal reference of an export: kind byte then index. -/
def sInternal : Internal → List Nat
  | .function i => 0 :: uleb i
  | .table i => 1 :: uleb i
  | .memory i => 2 :: uleb i
  | .global i => 3 :: uleb i

/-- Parse an internal reference. -/
def pInternal (bs : List Nat) : Option (Internal × List Nat) :=
  match bs with
  | 0 :: r =>
    match pULeb r with
    | some (i, r2) => some (.function i, r2)
    | none => none
  | 1 :: r =>
    match pULeb r with
    | some (i, r2) => some (.table i, r2)
    | none => none
  | 2 :: r =>
    match pULeb r with
    | some (i, r2) => some (.memory i, r2)
    | none => none
  | 3 :: r =>
    match pULeb r with
    | some (i, r2) => some (.global i, r2)
    | none => none
  | _ => none

theorem pInternal_sInternal (i : Internal) (r : List Nat) :
    pInternal (sInternal i ++ r) = some (i, r) := by
  cases i <;> simp [sInternal, pInternal, pULeb_uleb]

/-- Export entry: field name then internal reference. -/
def sExportEntry (e : ExportEntry) : List Nat :=
  sBytes e.field ++ sInternal e.internal

/-- Parse an export entry. -/
def pExportEntry (bs : List Nat) : Option (ExportEntry × List Nat) :=
  match pBytes bs with
  | some (f, r) =>
    match pInternal r with
    | some (i, r2) => some (⟨f, i⟩, r2)
    | none => none
  | none => none

theorem pExportEntry_sExportEntry (e : ExportEntry) (r : List Nat) :
    pExportEntry (sExportEntry e ++ r) = some (e, r) := by
  obtain ⟨f, i⟩ := e
  simp only [sExportEntry, List.append_assoc, pExportEntry, pBytes_sBytes,
    pInternal_sInternal]

/-- One local declaration: count then value type. -/
def sLocal (l : LocalEntry) : List Nat :=
  uleb l.count ++ sValueType l.valueType

/-- Parse one local declaration. -/
def pLocal (bs : List Nat) : Option (LocalEntry × List Nat) :=
  match pULeb bs with
  | some (c, r) =>
    match pValueType r with
    | some (v, r2) => some (⟨c, v⟩, r2)
    | none => none
  | none => none

theorem pLocal_sLocal (l : LocalEntry) (r : List Nat) :
    pLocal (sLocal l ++ r) = some (l, r) := by
  obtain ⟨c, v⟩ := l
  simp only [sLocal, List.append_assoc, pLocal, pULeb_uleb, pValueType_sValueType]

/-- Function body payload: locals vector then the instruction list. -/
def sBodyPayload (b : FuncBody) : List Nat :=
  sVec sLocal b.locals ++ cmap sInstr b.code

/-- Function body: LEB128 byte size then the payload (the parser checks
that the payload is consumed exactly). -/
def sFuncBody (b : FuncBody) : List Nat :=
  sBytes (sBodyPayload b)

/-- Parse a function body. -/
def pFuncBody (bs : List Nat) : Option (FuncBody × List Nat) :=
  match pBytes bs with
  | some (pl, rest) =>
    match pVec pLocal pl with
    | some (ls, r2) =>
      match pInstrs r2.length r2 with
      | some (is, r3) => if r3 = [] then some (⟨ls, is⟩, rest) else none
      | none => none
    | none => none
  | none => none

theorem pInstrs_cmap_nil (is : List Instruction) (hw : wellEnded is) :
    pInstrs (cmap sInstr is).length (cmap sInstr is) = some (is, []) := by
  have h := pInstrs_cmap is [] (cmap sInstr is).length hw (cmap_length_ge is)
  simpa using h

theorem pFuncBody_sFuncBody (b : FuncBody) (r : List Nat) (hw : wellEnded b.code) :
    pFuncBody (sFuncBody b ++ r) = some (b, r) := by
  obtain ⟨ls, is⟩ := b
  have h1 := pVec_sVec pLocal sLocal ls (cmap sInstr is) (fun x _ r2 => pLocal_sLocal x r2)
  have h2 := pInstrs_cmap_nil is hw
  simp only [sFuncBody, sBodyPayload, pFuncBody, pBytes_sBytes, h1, h2]
  simp

/-- Global entry: global type then init expression. -/
def sGlobalEntry (g : GlobalEntry) : List Nat :=
  sGlobalType g.globalType ++ cmap sInstr g.initExpr

/-- Parse a global entry (the init expression ends at its terminal `End`). -/
def pGlobalEntry (bs : List Nat) : Option (GlobalEntry × List Nat) :=
  match pGlobalType bs with
  | some (g, r) =>
    match pInstrs r.length r with
    | some (is, r2) => some (⟨g, is⟩, r2)
    | none => none
  | none => none

theorem pGlobalEntry_sGlobalEntry (g : GlobalEntry) (r : List Nat)
    (hw : wellEnded g.initExpr) :
    pGlobalEntry (sGlobalEntry g ++ r) = some (g, r) := by
  obtain ⟨gt, is⟩ := g
  have h2 := pInstrs_cmap is r (cmap sInstr is ++ r).length hw (by
    have h1 := cmap_length_ge is
    simp only [List.length_append]
    omega)
  simp only [sGlobalEntry, List.append_assoc, pGlobalEntry, pGlobalType_sGlobalType, h2]

/-- Element segment: table index, offset init expression, member vector. -/
def sElementSegment (e : ElementSegment) : List Nat :=
  uleb e.index ++ cmap sInstr e.offset ++ sVec uleb e.members

/-- Parse an element segment. -/
def pElementSegment (bs : List Nat) : Option (ElementSegment × List Nat) :=
  match pULeb bs with
  | some (i, r) =>
    match pInstrs r.length r with
    | some (is, r2) =>
      match pVec pULeb r2 with
      | some (ms, r3) => some (⟨i, is, ms⟩, r3)
      | none => none
    | none => none
  | none => none

theorem pElementSegment_sElementSegment (e : ElementSegment) (r : List Nat)
    (hw : wellEnded e.offset) :
    pElementSegment (sElementSegment e ++ r) = some (e, r) := by
  obtain ⟨i, is, ms⟩ := e
  have h2 := pInstrs_cmap is (sVec uleb ms ++ r)
    (cmap sInstr is ++ (sVec uleb ms ++ r)).length hw (by
      have h1 := cmap_length_ge is
      simp only [List.length_append]
      omega)
  have h3 := pVec_sVec pULeb uleb ms r (fun x _ r2 => pULeb_uleb x r2)
  simp only [sElementSegment, List.append_assoc, pElementSegment, pULeb_uleb, h2, h3]

/-- Data segment: memory index, offset init expression, byte vector. -/
def sDataSegment (d : DataSegment) : List Nat :=
  uleb d.index ++ cmap sInstr d.offset ++ sBytes d.value

/-- Parse a data segment. -/
def pDataSegment (bs : List Nat) : Option (DataSegment × List Nat) :=
  match pULeb bs with
  | some (i, r) =>
    match pInstrs r.length r with
    | some (is, r2) =>
      match pBytes r2 with
      | some (v, r3) => some (⟨i, is, v⟩, r3)
      | none => none
    | none => none
  | none => none

theorem pDataSegment_sDataSegment (d : DataSegment) (r : List Nat)
    (hw : wellEnded d.offset) :
    pDataSegment (sDataSegment d ++ r) = some (d, r) := by
  obtain ⟨i, is, v⟩ := d
  have h2 := pInstrs_cmap is (sBytes v ++ r)
    (cmap sInstr is ++ (sBytes v ++ r)).length hw (by
      have h1 := cmap_length_ge is
      simp only [List.length_append]
      omega)
  simp only [sDataSegment, List.append_assoc, pDataSegment, pULeb_uleb, h2, pBytes_sBytes]

/-- Section frame: id byte, LEB128 payload size, payload. -/
def frame (id : Nat) (payload : List Nat) : List Nat :=
  id :: sBytes payload

/-- A name map (wasm names-section index map): count then (index, name)
pairs. -/
def sNameMap (m : List (Nat × Name)) : List Nat :=
  sVec (fun p => uleb p.1 ++ sBytes p.2) m

/-- Payload of the `name` custom section in parsed form: module,
function and local subsections, each an id byte, size and contents. -/
def sNameSecPayload (ns : NameSec) : List Nat :=
  (match ns.moduleName with
   | none => []
   | some n => 0 :: sBytes (sBytes n)) ++
  (match ns.functionNames with
   | none => []
   | some m => 1 :: sBytes (sNameMap m)) ++
  (match ns.localNames with
   | none => []
   | some lm => 2 :: sBytes (sVec (fun p => uleb p.1 ++ sNameMap p.2) lm))

/-- Serialize one section.  A parsed name section re-encodes as the
equivalent raw custom section, so parsing the names section does not
change byte-exactness on re-encode (§4.1). -/
def sSection : Section → List Nat
  | .typeSec ts => frame 1 (sVec sFuncType ts)
  | .importSec es => frame 2 (sVec sImportEntry es)
  | .functionSec fs => frame 3 (sVec uleb fs)
  | .tableSec ts => frame 4 (sVec sTableType ts)
  | .memorySec ms => frame 5 (sVec sMemoryType ms)
  | .globalSec gs => frame 6 (sVec sGlobalEntry gs)
  | .exportSec es => frame 7 (sVec sExportEntry es)
  | .startSec i => frame 8 (uleb i)
  | .elementSec es => frame 9 (sVec sElementSegment es)
  | .codeSec bs => frame 10 (sVec sFuncBody bs)
  | .dataSec ds => frame 11 (sVec sDataSegment ds)
  | .custom c => frame 0 (sBytes c.name ++ c.payload)
  | .name ns => frame 0 (sBytes (ascii "name") ++ sNameSecPayload ns)

/-- The raw (unparsed) form of a section: a parsed name section becomes
the equivalent custom section; all other sections are unchanged. -/
def Section.raw : Section → Section
  | .name ns => .custom ⟨ascii "name", sNameSecPayload ns⟩
  | s => s

theorem sSection_raw (s : Section) : sSection s.raw = sSection s := by
  cases s <;> rfl

/-- Parse a section payload according to the section id.  The decoder
always yields the raw custom form for id 0 (parity-wasm only lifts it to
the parsed name section in `parse_names`). -/
def pSectionBody (id : Nat) (pl : List Nat) : Option Section :=
  match id with
  | 0 =>
    match pBytes pl with
    | some (n, rest) => some (.custom ⟨n, rest⟩)
    | none => none
  | 1 =>
    match pVec pFuncType pl with
    | some (ts, r) => if r = [] then some (.typeSec ts) else none
    | none => none
  | 2 =>
    match pVec pImportEntry pl with
    | some (es, r) => if r = [] then some (.importSec es) else none
    | none => none
  | 3 =>
    match pVec pULeb pl with
    | some (fs, r) => if r = [] then some (.functionSec fs) else none
    | none => none
  | 4 =>
    match pVec pTableType pl with
    | some (ts, r) => if r = [] then some (.tableSec ts) else none
    | none => none
  | 5 =>
    match pVec pMemLimits pl with
    | some (ms, r) => if r = [] then some (.memorySec ms) else none
    | none => none
  | 6 =>
    match pVec pGlobalEntry pl with
    | some (gs, r) => if r = [] then some (.globalSec gs) else none
    | none => none
  | 7 =>
    match pVec pExportEntry pl with
    | some (es, r) => if r = [] then some (.exportSec es) else none
    | none => none
  | 8 =>
    match pULeb pl with
    | some (i, r) => if r = [] then some (.startSec i) else none
    | none => none
  | 9 =>
    match pVec pElementSegment pl with
    | some (es, r) => if r = [] then some (.elementSec es) else none
    | none => none
  | 10 =>
    match pVec pFuncBody pl with
    | some (bs, r) => if r = [] then some (.codeSec bs) else none
    | none => none
  | 11 =>
    match pVec pDataSegment pl with
    | some (ds, r) => if r = [] then some (.dataSec ds) else none
    | none => none
  | _ => none

/-- Parse one framed section. -/
def pSection (bs : List Nat) : Option (Section × List Nat) :=
  match bs with
  | [] => none
  | id :: r =>
    match pBytes r with
    | some (pl, rest) =>
      match pSectionBody id pl with
      | some sec => some (sec, rest)
      | none => none
    | none => none

/-- Decoder-shape soundness of a section: every instruction list ends at
its terminal `End`, and shared memories carry a maximum.  Every decoded
section satisfies this, and it is exactly what byte-exact re-encoding
needs. -/
def sectionWF : Section → Bool
  | .codeSec bs => bs.all fun b => wellEnded b.code
  | .globalSec gs => gs.all fun g => wellEnded g.initExpr
  | .elementSec es => es.all fun e => wellEnded e.offset
  | .dataSec ds => ds.all fun d => wellEnded d.offset
  | .importSec es => es.all fun e => externalWF e.external
  | .memorySec ms => ms.all fun m => !m.shared || m.maximum.isSome
  | _ => true

theorem pSection_sSection (s : Section) (r : List Nat) (hw : sectionWF s) :
    pSection (sSection s ++ r) = some (s.raw, r) := by
  cases s with
  | typeSec ts =>
    have h1 := pVec_sVec pFuncType sFuncType ts []
      (fun x _ r2 => pFuncType_sFuncType x r2)
    simp only [sSection, frame, Section.raw, List.cons_append, pSection, pBytes_sBytes,
      pSectionBody]
    simp only [List.append_nil] at h1
    simp [h1]
  | importSec es =>
    simp only [sectionWF, List.all_eq_true] at hw
    have h1 := pVec_sVec pImportEntry sImportEntry es []
      (fun x hx r2 => pImportEntry_sImportEntry x r2 (hw x hx))
    simp only [sSection, frame, Section.raw, List.cons_append, pSection, pBytes_sBytes,
      pSectionBody]
    simp only [List.append_nil] at h1
    simp [h1]
  | functionSec fs =>
    have h1 := pVec_sVec pULeb uleb fs [] (fun x _ r2 => pULeb_uleb x r2)
    simp only [sSection, frame, Section.raw, List.cons_append, pSection, pBytes_sBytes,
      pSectionBody]
    simp only [List.append_nil] at h1
    simp [h1]
  | tableSec ts =>
    have h1 := pVec_sVec pTableType sTableType ts []
      (fun x _ r2 => pTableType_sTableType x r2)
    simp only [sSection, frame, Section.raw, List.cons_append, pSection, pBytes_sBytes,
      pSectionBody]
    simp only [List.append_nil] at h1
    simp [h1]
  | memorySec ms =>
    simp only [sectionWF, List.all_eq_true] at hw
    have h1 := pVec_sVec pMemLimits sMemoryType ms []
      (fun x hx r2 => pMemLimits_sMemoryType x r2 (fun hs => by
        have := hw x hx
        rw [hs] at this
        simpa using this))
    simp only [sSection, frame, Section.raw, List.cons_append, pSection, pBytes_sBytes,
      pSectionBody]
    simp only [List.append_nil] at h1
    simp [h1]
  | globalSec gs =>
    simp only [sectionWF, List.all_eq_true] at hw
    have h1 := pVec_sVec pGlobalEntry sGlobalEntry gs []
      (fun x hx r2 => pGlobalEntry_sGlobalEntry x r2 (hw x hx))
    simp only [sSection, frame, Section.raw, List.cons_append, pSection, pBytes_sBytes,
      pSectionBody]
    simp only [List.append_nil] at h1
    simp [h1]
  | exportSec es =>
    have h1 := pVec_sVec pExportEntry sExportEntry es []
      (fun x _ r2 => pExportEntry_sExportEntry x r2)
    simp only [sSection, frame, Section.raw, List.cons_append, pSection, pBytes_sBytes,
      pSectionBody]
    simp only [List.append_nil] at h1
    simp [h1]
  | startSec i =>
    have h1 := pULeb_uleb i []
    simp only [sSection, frame, Section.raw, List.cons_append, pSection, pBytes_sBytes,
      pSectionBody]
    simp only [List.append_nil] at h1
    simp [h1]
  | elementSec es =>
    simp only [sectionWF, List.all_eq_true] at hw
    have h1 := pVec_sVec pElementSegment sElementSegment es []
      (fun x hx r2 => pElementSegment_sElementSegment x r2 (hw x hx))
    simp only [sSection, frame, Section.raw, List.cons_append, pSection, pBytes_sBytes,
      pSectionBody]
    simp only [List.append_nil] at h1
    simp [h1]
  | codeSec bs =>
    simp only [sectionWF, List.all_eq_true] at hw
    have h1 := pVec_sVec pFuncBody sFuncBody bs []
      (fun x hx r2 => pFuncBody_sFuncBody x r2 (hw x hx))
    simp only [sSection, frame, Section.raw, List.cons_append, pSection, pBytes_sBytes,
      pSectionBody]
    simp only [List.append_nil] at h1
    simp [h1]
  | dataSec ds =>
    simp only [sectionWF, List.all_eq_true] at hw
    have h1 := pVec_sVec pDataSegment sDataSegment ds []
      (fun x hx r2 => pDataSegment_sDataSegment x r2 (hw x hx))
    simp only [sSection, frame, Section.raw, List.cons_append, pSection, pBytes_sBytes,
      pSectionBody]
    simp only [List.append_nil] at h1
    simp [h1]
  | custom c =>
    simp only [sSection, frame, Section.raw, List.cons_append, pSection, pBytes_sBytes,
      pSectionBody]
  | name ns =>
    simp only [sSection, frame, Section.raw, List.cons_append, pSection, pBytes_sBytes,
      pSectionBody]

/-- `Module::to_bytes` / `parity_wasm::serialize`: magic, version, then
the sections in stored order. -/
def Module.toBytes (m : Module) : List Nat :=
  [0, 97, 115, 109, 1, 0, 0, 0] ++ cmap sSection m.sections

/-- Parse sections until the input is exhausted (with fuel). -/
def pSections : Nat → List Nat → Option (List Section)
  | _, [] => some []
  | 0, _ :: _ => none
  | fuel + 1, b :: bs =>
    match pSection (b :: bs) with
    | some (s, r) =>
      match pSections fuel r with
      | some ss => some (s :: ss)
      | none => none
    | none => none

/-- `Module::from_bytes` / `deserialize_buffer`: magic, version, then
sections to end of input. -/
def Module.fromBytes (bs : List Nat) : Option Module :=
  match bs with
  | 0 :: 97 :: 115 :: 109 :: 1 :: 0 :: 0 :: 0 :: rest =>
    match pSections rest.length rest with
    | some ss => some ⟨ss⟩
    | none => none
  | _ => none

/-- Decoder-shape soundness of a whole module. -/
def moduleWF (m : Module) : Bool :=
  m.sections.all sectionWF

theorem sSection_length_pos (s : Section) : 1 ≤ (sSection s).length := by
  cases s <;> simp [sSection, frame]

theorem cmap_sSection_length_ge (ss : List Section) :
    ss.length ≤ (cmap sSection ss).length := by
  induction ss with
  | nil => simp [cmap]
  | cons s ss ih =>
    simp only [cmap, List.length_append, List.length_cons]
    have := sSection_length_pos s
    omega

theorem pSections_cmap (ss : List Section) (fuel : Nat)
    (hw : ∀ s ∈ ss, sectionWF s) (hf : ss.length ≤ fuel) :
    pSections fuel (cmap sSection ss) = some (ss.map Section.raw) := by
  induction ss generalizing fuel with
  | nil => cases fuel <;> simp [cmap, pSections]
  | cons s ss ih =>
    match fuel, hf with
    | fuel + 1, hf =>
      have hpos := sSection_length_pos s
      have hs := pSection_sSection s (cmap sSection ss) (hw s (by simp))
      have hrest : pSections fuel (cmap sSection ss) = some (ss.map Section.raw) := by
        apply ih <;> first
        | exact fun t ht => hw t (by simp [ht])
        | (simp at hf ⊢; omega)
      cases hcons : sSection s ++ cmap sSection ss with
      | nil =>
        exfalso
        have : (sSection s ++ cmap sSection ss).length = 0 := by rw [hcons]; rfl
        simp only [List.length_append] at this
        omega
      | cons b bs =>
        simp only [cmap, hcons, pSections]
        rw [← hcons, hs]
        simp only [hrest]
        simp

theorem pSections_cmap_self (ss : List Section)
    (hw : ∀ s ∈ ss, sectionWF s) :
    pSections (cmap sSection ss).length (cmap sSection ss) =
      some (ss.map Section.raw) :=
  pSections_cmap ss (cmap sSection ss).length hw (cmap_sSection_length_ge ss)

/-- The raw form of a module (parsed name sections lowered to customs). -/
def Module.raw (m : Module) : Module :=
  ⟨m.sections.map Section.raw⟩

theorem toBytes_raw (m : Module) : m.raw.toBytes = m.toBytes := by
  obtain ⟨ss⟩ := m
  simp only [Module.raw, Module.toBytes, List.append_cancel_left_eq]
  induction ss with
  | nil => rfl
  | cons s ss ih => simp [cmap, sSection_raw, ih]

/-- Byte-exact round trip for well-formed modules: decoding the encoding
succeeds and yields the raw form, whose encoding is byte-identical. -/
theorem fromBytes_toBytes (m : Module) (hw : moduleWF m) :
    Module.fromBytes m.toBytes = some m.raw := by
  obtain ⟨ss⟩ := m
  simp only [moduleWF, List.all_eq_true] at hw
  simp only [Module.toBytes, Module.fromBytes, List.cons_append, List.nil_append]
  rw [pSections_cmap_self ss hw]
  rfl

theorem pN_all {α : Type} (p : List Nat → Option (α × List Nat)) (P : α → Prop)
    (hp : ∀ bs x r, p bs = some (x, r) → P x) :
    ∀ n bs xs r, pN p n bs = some (xs, r) → ∀ x ∈ xs, P x := by
  intro n
  induction n with
  | zero =>
    intro bs xs r h x hx
    simp only [pN] at h
    cases h
    simp at hx
  | succ n ih =>
    intro bs xs r h x hx
    simp only [pN] at h
    cases hp1 : p bs with
    | none => simp only [hp1] at h; simp at h
    | some q =>
      obtain ⟨y, r1⟩ := q
      simp only [hp1] at h
      cases hp2 : pN p n r1 with
      | none => simp only [hp2] at h; simp at h
      | some q2 =>
        obtain ⟨ys, r2⟩ := q2
        simp only [hp2] at h
        simp only [Option.some.injEq, Prod.mk.injEq] at h
        obtain ⟨h1, h2⟩ := h
        subst h1
        cases hx with
        | head => exact hp bs x r1 hp1
        | tail _ hmem => exact ih r1 ys r2 hp2 x hmem

theorem pVec_all {α : Type} (p : List Nat → Option (α × List Nat)) (P : α → Prop)
    (hp : ∀ bs x r, p bs = some (x, r) → P x) :
    ∀ bs xs r, pVec p bs = some (xs, r) → ∀ x ∈ xs, P x := by
  intro bs xs r h
  simp only [pVec] at h
  cases hu : pULeb bs with
  | none => simp only [hu] at h; simp at h
  | some q =>
    obtain ⟨n, r1⟩ := q
    simp only [hu] at h
    exact pN_all p P hp n r1 xs r h

theorem pFuncBody_wellEnded (bs : List Nat) (b : FuncBody) (r : List Nat)
    (h : pFuncBody bs = some (b, r)) : wellEnded b.code := by
  simp only [pFuncBody] at h
  cases h1 : pBytes bs with
  | none => simp only [h1] at h; simp at h
  | some q =>
    obtain ⟨pl, rest⟩ := q
    simp only [h1] at h
    cases h2 : pVec pLocal pl with
    | none => simp only [h2] at h; simp at h
    | some q2 =>
      obtain ⟨ls, r2⟩ := q2
      simp only [h2] at h
      cases h3 : pInstrs r2.length r2 with
      | none => simp only [h3] at h; simp at h
      | some q3 =>
        obtain ⟨is, r3⟩ := q3
        simp only [h3] at h
        by_cases hr : r3 = []
        · simp only [hr, if_true, Option.some.injEq, Prod.mk.injEq] at h
          obtain ⟨hb, _⟩ := h
          subst hb
          exact pInstrs_wellEnded r2.length r2 is r3 (by rw [h3, hr])
        · simp [hr] at h

theorem pGlobalEntry_wellEnded (bs : List Nat) (g : GlobalEntry) (r : List Nat)
    (h : pGlobalEntry bs = some (g, r)) : wellEnded g.initExpr := by
  simp only [pGlobalEntry] at h
  cases h1 : pGlobalType bs with
  | none => simp only [h1] at h; simp at h
  | some q =>
    obtain ⟨gt, r1⟩ := q
    simp only [h1] at h
    cases h2 : pInstrs r1.length r1 with
    | none => simp only [h2] at h; simp at h
    | some q2 =>
      obtain ⟨is, r2⟩ := q2
      simp only [h2] at h
      simp only [Option.some.injEq, Prod.mk.injEq] at h
      obtain ⟨hb, _⟩ := h
      subst hb
      exact pInstrs_wellEnded r1.length r1 is r2 h2

theorem pElementSegment_wellEnded (bs : List Nat) (e : ElementSegment) (r : List Nat)
    (h : pElementSegment bs = some (e, r)) : wellEnded e.offset := by
  simp only [pElementSegment] at h
  cases h1 : pULeb bs with
  | none => simp only [h1] at h; simp at h
  | some q =>
    obtain ⟨i, r1⟩ := q
    simp only [h1] at h
    cases h2 : pInstrs r1.length r1 with
    | none => simp only [h2] at h; simp at h
    | some q2 =>
      obtain ⟨is, r2⟩ := q2
      simp only [h2] at h
      cases h3 : pVec pULeb r2 with
      | none => simp only [h3] at h; simp at h
      | some q3 =>
        obtain ⟨ms, r3⟩ := q3
        simp only [h3] at h
        simp only [Option.some.injEq, Prod.mk.injEq] at h
        obtain ⟨hb, _⟩ := h
        subst hb
        exact pInstrs_wellEnded r1.length r1 is r2 h2

theorem pDataSegment_wellEnded (bs : List Nat) (d : DataSegment) (r : List Nat)
    (h : pDataSegment bs = some (d, r)) : wellEnded d.offset := by
  simp only [pDataSegment] at h
  cases h1 : pULeb bs with
  | none => simp only [h1] at h; simp at h
  | some q =>
    obtain ⟨i, r1⟩ := q
    simp only [h1] at h
    cases h2 : pInstrs r1.length r1 with
    | none => simp only [h2] at h; simp at h
    | some q2 =>
      obtain ⟨is, r2⟩ := q2
      simp only [h2] at h
      cases h3 : pBytes r2 with
      | none => simp only [h3] at h; simp at h
      | some q3 =>
        obtain ⟨v, r3⟩ := q3
        simp only [h3] at h
        simp only [Option.some.injEq, Prod.mk.injEq] at h
        obtain ⟨hb, _⟩ := h
        subst hb
        exact pInstrs_wellEnded r1.length r1 is r2 h2

theorem pMemLimits_shared (bs : List Nat) (m : MemoryType) (r : List Nat)
    (h : pMemLimits bs = some (m, r)) : (!m.shared || m.maximum.isSome) = true := by
  unfold pMemLimits at h
  match bs, h with
  | 0 :: r1, h =>
    cases h1 : pULeb r1 with
    | none => simp only [h1] at h; simp at h
    | some q =>
      obtain ⟨i, r2⟩ := q
      simp only [h1] at h
      simp only [Option.some.injEq, Prod.mk.injEq] at h
      obtain ⟨hb, _⟩ := h
      subst hb
      rfl
  | 1 :: r1, h =>
    cases h1 : pULeb r1 with
    | none => simp only [h1] at h; simp at h
    | some q =>
      obtain ⟨i, r2⟩ := q
      simp only [h1] at h
      cases h2 : pULeb r2 with
      | none => simp only [h2] at h; simp at h
      | some q2 =>
        obtain ⟨mx, r3⟩ := q2
        simp only [h2] at h
        simp only [Option.some.injEq, Prod.mk.injEq] at h
        obtain ⟨hb, _⟩ := h
        subst hb
        rfl
  | 3 :: r1, h =>
    cases h1 : pULeb r1 with
    | none => simp only [h1] at h; simp at h
    | some q =>
      obtain ⟨i, r2⟩ := q
      simp only [h1] at h
      cases h2 : pULeb r2 with
      | none => simp only [h2] at h; simp at h
      | some q2 =>
        obtain ⟨mx, r3⟩ := q2
        simp only [h2] at h
        simp only [Option.some.injEq, Prod.mk.injEq] at h
        obtain ⟨hb, _⟩ := h
        subst hb
        rfl

theorem pExternal_wf (bs : List Nat) (e : External) (r : List Nat)
    (h : pExternal bs = some (e, r)) : externalWF e := by
  unfold pExternal at h
  match bs, h with
  | 0 :: r1, h =>
    cases h1 : pULeb r1 with
    | none => simp only [h1] at h; simp at h
    | some q =>
      obtain ⟨t, r2⟩ := q
      simp only [h1] at h
      simp only [Option.some.injEq, Prod.mk.injEq] at h
      obtain ⟨hb, _⟩ := h
      subst hb
      rfl
  | 1 :: r1, h =>
    cases h1 : pTableType r1 with
    | none => simp only [h1] at h; simp at h
    | some q =>
      obtain ⟨t, r2⟩ := q
      simp only [h1] at h
      simp only [Option.some.injEq, Prod.mk.injEq] at h
      obtain ⟨hb, _⟩ := h
      subst hb
      rfl
  | 2 :: r1, h =>
    cases h1 : pMemLimits r1 with
    | none => simp only [h1] at h; simp at h
    | some q =>
      obtain ⟨mt, r2⟩ := q
      simp only [h1] at h
      simp only [Option.some.injEq, Prod.mk.injEq] at h
      obtain ⟨hb, _⟩ := h
      subst hb
      simpa [externalWF] using pMemLimits_shared r1 mt r2 h1
  | 3 :: r1, h =>
    cases h1 : pGlobalType r1 with
    | none => simp only [h1] at h; simp at h
    | some q =>
      obtain ⟨g, r2⟩ := q
      simp only [h1] at h
      simp only [Option.some.injEq, Prod.mk.injEq] at h
      obtain ⟨hb, _⟩ := h
      subst hb
      rfl

theorem pImportEntry_wf (bs : List Nat) (e : ImportEntry) (r : List Nat)
    (h : pImportEntry bs = some (e, r)) : externalWF e.external := by
  simp only [pImportEntry] at h
  cases h1 : pBytes bs with
  | none => simp only [h1] at h; simp at h
  | some q =>
    obtain ⟨m, r1⟩ := q
    simp only [h1] at h
    cases h2 : pBytes r1 with
    | none => simp only [h2] at h; simp at h
    | some q2 =>
      obtain ⟨f, r2⟩ := q2
      simp only [h2] at h
      cases h3 : pExternal r2 with
      | none => simp only [h3] at h; simp at h
      | some q3 =>
        obtain ⟨ex, r3⟩ := q3
        simp only [h3] at h
        simp only [Option.some.injEq, Prod.mk.injEq] at h
        obtain ⟨hb, _⟩ := h
        subst hb
        exact pExternal_wf r2 ex r3 h3

/-- Whatever the section-body parser yields is well formed and already
in raw form (it never yields a parsed name section). -/
theorem pSectionBody_wf (id : Nat) (pl : List Nat) (s : Section)
    (h : pSectionBody id pl = some s) : sectionWF s ∧ s.raw = s := by
  unfold pSectionBody at h
  match id, h with
  | 0, h =>
    cases h1 : pBytes pl with
    | none => simp only [h1] at h; simp at h
    | some q =>
      obtain ⟨n, rest⟩ := q
      simp only [h1] at h
      cases h
      exact ⟨rfl, rfl⟩
  | 1, h =>
    cases h1 : pVec pFuncType pl with
    | none => simp only [h1] at h; simp at h
    | some q =>
      obtain ⟨ts, r⟩ := q
      simp only [h1] at h
      by_cases hr : r = []
      · simp only [hr, if_true] at h
        cases h
        exact ⟨rfl, rfl⟩
      · simp [hr] at h
  | 2, h =>
    cases h1 : pVec pImportEntry pl with
    | none => simp only [h1] at h; simp at h
    | some q =>
      obtain ⟨es, r⟩ := q
      simp only [h1] at h
      by_cases hr : r = []
      · simp only [hr, if_true] at h
        cases h
        refine ⟨?_, rfl⟩
        simp only [sectionWF, List.all_eq_true]
        exact fun e he => pVec_all pImportEntry (fun e => externalWF e.external)
          (fun bs x r2 hx => pImportEntry_wf bs x r2 hx) pl es r h1 e he
      · simp [hr] at h
  | 3, h =>
    cases h1 : pVec pULeb pl with
    | none => simp only [h1] at h; simp at h
    | some q =>
      obtain ⟨fs, r⟩ := q
      simp only [h1] at h
      by_cases hr : r = []
      · simp only [hr, if_true] at h
        cases h
        exact ⟨rfl, rfl⟩
      · simp [hr] at h
  | 4, h =>
    cases h1 : pVec pTableType pl with
    | none => simp only [h1] at h; simp at h
    | some q =>
      obtain ⟨ts, r⟩ := q
      simp only [h1] at h
      by_cases hr : r = []
      · simp only [hr, if_true] at h
        cases h
        exact ⟨rfl, rfl⟩
      · simp [hr] at h
  | 5, h =>
    cases h1 : pVec pMemLimits pl with
    | none => simp only [h1] at h; simp at h
    | some q =>
      obtain ⟨ms, r⟩ := q
      simp only [h1] at h
      by_cases hr : r = []
      · simp only [hr, if_true] at h
        cases h
        refine ⟨?_, rfl⟩
        simp only [sectionWF, List.all_eq_true]
        exact fun e he => pVec_all pMemLimits
          (fun mt => (!mt.shared || mt.maximum.isSome) = true)
          (fun bs x r2 hx => pMemLimits_shared bs x r2 hx) pl ms r h1 e he
      · simp [hr] at h
  | 6, h =>
    cases h1 : pVec pGlobalEntry pl with
    | none => simp only [h1] at h; simp at h
    | some q =>
      obtain ⟨gs, r⟩ := q
      simp only [h1] at h
      by_cases hr : r = []
      · simp only [hr, if_true] at h
        cases h
        refine ⟨?_, rfl⟩
        simp only [sectionWF, List.all_eq_true]
        exact fun e he => pVec_all pGlobalEntry (fun g => wellEnded g.initExpr = true)
          (fun bs x r2 hx => pGlobalEntry_wellEnded bs x r2 hx) pl gs r h1 e he
      · simp [hr] at h
  | 7, h =>
    cases h1 : pVec pExportEntry pl with
    | none => simp only [h1] at h; simp at h
    | some q =>
      obtain ⟨es, r⟩ := q
      simp only [h1] at h
      by_cases hr : r = []
      · simp only [hr, if_true] at h
        cases h
        exact ⟨rfl, rfl⟩
      · simp [hr] at h
  | 8, h =>
    cases h1 : pULeb pl with
    | none => simp only [h1] at h; simp at h
    | some q =>
      obtain ⟨i, r⟩ := q
      simp only [h1] at h
      by_cases hr : r = []
      · simp only [hr, if_true] at h
        cases h
        exact ⟨rfl, rfl⟩
      · simp [hr] at h
  | 9, h =>
    cases h1 : pVec pElementSegment pl with
    | none => simp only [h1] at h; simp at h
    | some q =>
      obtain ⟨es, r⟩ := q
      simp only [h1] at h
      by_cases hr : r = []
      · simp only [hr, if_true] at h
        cases h
        refine ⟨?_, rfl⟩
        simp only [sectionWF, List.all_eq_true]
        exact fun e he => pVec_all pElementSegment (fun e => wellEnded e.offset = true)
          (fun bs x r2 hx => pElementSegment_wellEnded bs x r2 hx) pl es r h1 e he
      · simp [hr] at h
  | 10, h =>
    cases h1 : pVec pFuncBody pl with
    | none => simp only [h1] at h; simp at h
    | some q =>
      obtain ⟨bs2, r⟩ := q
      simp only [h1] at h
      by_cases hr : r = []
      · simp only [hr, if_true] at h
        cases h
        refine ⟨?_, rfl⟩
        simp only [sectionWF, List.all_eq_true]
        exact fun e he => pVec_all pFuncBody (fun b => wellEnded b.code = true)
          (fun bs x r2 hx => pFuncBody_wellEnded bs x r2 hx) pl bs2 r h1 e he
      · simp [hr] at h
  | 11, h =>
    cases h1 : pVec pDataSegment pl with
    | none => simp only [h1] at h; simp at h
    | some q =>
      obtain ⟨ds, r⟩ := q
      simp only [h1] at h
      by_cases hr : r = []
      · simp only [hr, if_true] at h
        cases h
        refine ⟨?_, rfl⟩
        simp only [sectionWF, List.all_eq_true]
        exact fun e he => pVec_all pDataSegment (fun d => wellEnded d.offset = true)
          (fun bs x r2 hx => pDataSegment_wellEnded bs x r2 hx) pl ds r h1 e he
      · simp [hr] at h

theorem pSection_wf (bs : List Nat) (s : Section) (r : List Nat)
    (h : pSection bs = some (s, r)) : sectionWF s ∧ s.raw = s := by
  unfold pSection at h
  match bs, h with
  | id :: r1, h =>
    cases h1 : pBytes r1 with
    | none => simp only [h1] at h; simp at h
    | some q =>
      obtain ⟨pl, rest⟩ := q
      simp only [h1] at h
      cases h2 : pSectionBody id pl with
      | none => simp only [h2] at h; simp at h
      | some sec =>
        simp only [h2] at h
        simp only [Option.some.injEq, Prod.mk.injEq] at h
        obtain ⟨hb, _⟩ := h
        subst hb
        exact pSectionBody_wf id pl sec h2

theorem pSections_wf (fuel : Nat) (bs : List Nat) (ss : List Section)
    (h : pSections fuel bs = some ss) : ∀ s ∈ ss, sectionWF s ∧ s.raw = s := by
  induction fuel generalizing bs ss with
  | zero =>
    intro s hs
    match bs, h with
    | [], h =>
      simp only [pSections, Option.some.injEq] at h
      subst h
      simp at hs
  | succ fuel ih =>
    intro s hs
    match bs, h with
    | [], h =>
      simp only [pSections, Option.some.injEq] at h
      subst h
      simp at hs
    | b :: r1, h =>
      simp only [pSections] at h
      cases h1 : pSection (b :: r1) with
      | none => simp only [h1] at h; simp at h
      | some q =>
        obtain ⟨sec, r2⟩ := q
        simp only [h1] at h
        cases h2 : pSections fuel r2 with
        | none => simp only [h2] at h; simp at h
        | some ss2 =>
          simp only [h2] at h
          simp only [Option.some.injEq] at h
          subst h
          cases hs with
          | head => exact pSection_wf (b :: r1) s r2 h1
          | tail _ hmem => exact ih r2 ss2 h2 s hmem

/-- Every decoded module is well formed and in raw form. -/
theorem fromBytes_wf (bs : List Nat) (m : Module)
    (h : Module.fromBytes bs = some m) : moduleWF m ∧ m.raw = m := by
  unfold Module.fromBytes at h
  match bs, h with
  | 0 :: 97 :: 115 :: 109 :: 1 :: 0 :: 0 :: 0 :: rest, h =>
    cases h1 : pSections rest.length rest with
    | none => simp only [h1] at h; simp at h
    | some ss =>
      simp only [h1] at h
      simp only [Option.some.injEq] at h
      subst h
      have hall := pSections_wf rest.length rest ss h1
      constructor
      · simp only [moduleWF, List.all_eq_true]
        exact fun s hs => (hall s hs).1
      · simp only [Module.raw, Module.mk.injEq]
        exact List.map_congr_left (fun s hs => (hall s hs).2) |>.trans (List.map_id ss)

theorem fromBytes_roundtrip (bs : List Nat) (m : Module)
    (h : Module.fromBytes bs = some m) :
    Module.fromBytes m.toBytes = some m := by
  obtain ⟨hwf, hraw⟩ := fromBytes_wf bs m h
  have h2 := fromBytes_toBytes m hwf
  rwa [hraw] at h2

/-!
## Pass library (`src/libchisel`)

Rust panics (`expect`, `unwrap`, out-of-bounds indexing, arithmetic
overflow in debug builds) are modelled as `Option.none` at the outermost
layer of the affected function.
-/

/-- `ModuleError` (`src/libchisel/src/lib.rs`). -/
inductive ModuleError
  | notSupported
  | notFound
  | custom (msg : String)
deriving DecidableEq

/-- Option maps of pass configurations (Rust `HashMap<String, String>`;
lookup is by key, modelled as first match in an association list). -/
abbrev OptionMap := List (String × String)

/-- `HashMap::get`. -/
def OptionMap.get (cfg : OptionMap) (key : String) : Option String :=
  (cfg.find? fun p => p.1 = key).map Prod.snd

/-- The floating-point instruction set matched by `CheckFloat::validate`
(`src/libchisel/src/checkfloat.rs`): f32/f64 arithmetic, comparison,
conversion, reinterpretation, constant, load and store opcodes. -/
def isFloatInstruction : Instruction → Bool
  | .F32Eq | .F32Ne | .F32Lt | .F32Gt | .F32Le | .F32Ge
  | .F32Abs | .F32Neg | .F32Ceil | .F32Floor | .F32Trunc | .F32Nearest | .F32Sqrt
  | .F32Add | .F32Sub | .F32Mul | .F32Div | .F32Min | .F32Max | .F32Copysign
  | .I32TruncSF32 | .I32TruncUF32 | .I64TruncSF32 | .I64TruncUF32
  | .F32ConvertSI32 | .F32ConvertUI32 | .F32ConvertSI64 | .F32ConvertUI64
  | .F32DemoteF64 | .F64PromoteF32
  | .I32ReinterpretF32 | .F32ReinterpretI32
  | .F64Eq | .F64Ne | .F64Lt | .F64Gt | .F64Le | .F64Ge
  | .F64Abs | .F64Neg | .F64Ceil | .F64Floor | .F64Trunc | .F64Nearest | .F64Sqrt
  | .F64Add | .F64Sub | .F64Mul | .F64Div | .F64Min | .F64Max | .F64Copysign
  | .I32TruncSF64 | .I32TruncUF64 | .I64TruncSF64 | .I64TruncUF64
  | .F64ConvertSI32 | .F64ConvertUI32 | .F64ConvertSI64 | .F64ConvertUI64
  | .I64ReinterpretF64 | .F64ReinterpretI64
  | .F32Const _ | .F32Load _ _ | .F32Store _ _
  | .F64Const _ | .F64Load _ _ | .F64Store _ _ => true
  | _ => false

/-- `CheckFloat::validate`: `NotFound` when the code section is absent,
otherwise `Ok(false)` as soon as any function body contains a
floating-point instruction, `Ok(true)` otherwise. -/
def checkFloatValidate (m : Module) : Except ModuleError Bool :=
  match m.codeSection with
  | none => .error .notFound
  | some bodies =>
    if bodies.any fun b => b.code.any isFloatInstruction then .ok false
    else .ok true

/-- `CheckStartFunc` (`src/libchisel/src/checkstartfunc.rs`). -/
structure CheckStartFunc where
  start_required : Bool
deriving DecidableEq

/-- `CheckStartFunc::new`. -/
def CheckStartFunc.new (is_start_required : Bool) : CheckStartFunc :=
  ⟨is_start_required⟩

/-- `CheckStartFunc::with_config`: reads `require_start`, treating an
absent option as `false` and any value other than `"true"` as `false`. -/
def CheckStartFunc.with_config (config : OptionMap) : Except ModuleError CheckStartFunc :=
  let require_start :=
    match config.get "require_start" with
    | some value => value = "true"
    | none => false
  .ok ⟨require_start⟩

/-- `CheckStartFunc::validate`. -/
def CheckStartFunc.validate (c : CheckStartFunc) (m : Module) : Except ModuleError Bool :=
  .ok (m.startSection.isSome = c.start_required)

/-- Replace the first export section's entries (the effect of mutating
through `Module::export_section_mut`). -/
def replaceFirstExportSec : List Section → List ExportEntry → List Section
  | [], _ => []
  | .exportSec _ :: rest, es => .exportSec es :: rest
  | s :: rest, es => s :: replaceFirstExportSec rest es

/-- `remap_or_export_main` (`src/libchisel/src/remapstart.rs`): replace
the first export named `export_name` in place, append if none matches,
or create a fresh export section when the module has none (`none`
models the impossible `insert_section` failure behind `expect`). -/
def remapOrExportMain (m : Module) (exportName : Name) (funcIdx : Nat) : Option Module :=
  let newFuncExport := ExportEntry.new exportName (.function funcIdx)
  match m.exportSection with
  | some entries =>
    match entries.findIdx? fun e => decide (e.field = exportName) with
    | some loc => some ⟨replaceFirstExportSec m.sections (entries.set loc newFuncExport)⟩
    | none => some ⟨replaceFirstExportSec m.sections (entries ++ [newFuncExport])⟩
  | none => m.insertSection (.exportSec [newFuncExport])

/-- `remap_start`: if a start section is present, remap or export `main`
at the start index and clear the start section, reporting change. -/
def remapStart (m : Module) : Option (Bool × Module) :=
  match m.startSection with
  | some startFuncIdx =>
    match remapOrExportMain m (ascii "main") startFuncIdx with
    | some m2 => some (true, m2.clearStartSection)
    | none => none
  | none => some (false, m)

/-- `RemapStart::translate` (functional form): a new module when
modified, nothing otherwise. -/
def remapStartTranslate (m : Module) : Option (Option Module) :=
  match remapStart m with
  | some (true, m2) => some (some m2)
  | some (false, _) => some none
  | none => none

/-- `TrimStartFunc::trim_startfunc`: drop the start section if present. -/
def trimStartFunc (m : Module) : Bool × Module :=
  match m.startSection with
  | some _ => (true, m.clearStartSection)
  | none => (false, m)

/-- `DropSection` (`src/libchisel/src/dropsection.rs`). -/
inductive DropSection
  | namesSection
  | customSectionByName (name : Name)
  | customSectionByIndex (index : Nat)
  | unknownSectionByIndex (index : Nat)

/-- `custom_section_index_for`: position of the first custom section
with the given name, a parsed name section counting as `"name"`. -/
def customSectionIndexFor (m : Module) (nm : Name) : Option Nat :=
  m.sections.findIdx? (secMatchesName nm)

/-- `DropSection::find_index`. -/
def DropSection.findIndex (ds : DropSection) (m : Module) : Option Nat :=
  match ds with
  | .namesSection => customSectionIndexFor m (ascii "name")
  | .customSectionByName nm => customSectionIndexFor m nm
  | .customSectionByIndex i => some i
  | .unknownSectionByIndex i => some i

/-- `DropSection::drop_section`: remove the section at the found index
when it is in range; out-of-range indices are a silent no-op. -/
def DropSection.dropSection (ds : DropSection) (m : Module) : Bool × Module :=
  match ds.findIndex m with
  | some index =>
    if index < m.sections.length then (true, ⟨m.sections.eraseIdx index⟩)
    else (false, m)
  | none => (false, m)

/-- `usize::max_value()` on a 64-bit target. -/
def usizeMax : Nat := 2 ^ 64 - 1

namespace VerifyImports

/-- `ImportType` (`src/libchisel/src/verifyimports.rs`): one allowed
entry of the import whitelist and the data checked for it. -/
inductive ImportType
  | function (namespace_ field : Name) (sig : FunctionType)
  | global (namespace_ field : Name)
  | memory (namespace_ field : Name)
  | table (namespace_ field : Name)
deriving DecidableEq

/-- `ImportStatus`. -/
inductive ImportStatus
  | good
  | notFound
  | malformed
deriving DecidableEq

end VerifyImports

/-- `VerifyImports`: allowed imports plus the `require_all` and
`allow_unlisted` flags. -/
structure VerifyImportsPass where
  entries : List VerifyImports.ImportType
  require_all : Bool
  allow_unlisted : Bool

/-- `imported_func_sig_by_index`: reads the import entry at `index` (a
panic, modelled as `none`, when the import section or type section is
absent or the index is out of bounds), takes its type index (or
`usize::max_value()` for a non-function import), and resolves it in the
type section (out of range is again a panic). -/
def importedFuncSigByIndex (m : Module) (index : Nat) : Option FunctionType :=
  match m.importSection with
  | none => none
  | some importSection =>
    match m.typeSection with
    | none => none
    | some typeSection =>
      match importSection.get? index with
      | none => none
      | some entry =>
        let funcTypeRef : Nat :=
          match entry.external with
          | .function idx => idx
          | _ => usizeMax
        typeSection.get? funcTypeRef

namespace VerifyImports

/-- `has_global_import`. -/
def hasGlobalImport (sec : List ImportEntry) (namespace_ field : Name) : Bool :=
  match sec.find? fun e => decide (e.module = namespace_ ∧ e.field = field) with
  | some imp =>
    match imp.external with
    | .global _ => true
    | _ => false
  | none => false

/-- `has_memory_import`. -/
def hasMemoryImport (sec : List ImportEntry) (namespace_ field : Name) : Bool :=
  match sec.find? fun e => decide (e.module = namespace_ ∧ e.field = field) with
  | some imp =>
    match imp.external with
    | .memory _ => true
    | _ => false
  | none => false

/-- `has_table_import`. -/
def hasTableImport (sec : List ImportEntry) (namespace_ field : Name) : Bool :=
  match sec.find? fun e => decide (e.module = namespace_ ∧ e.field = field) with
  | some imp =>
    match imp.external with
    | .table _ => true
    | _ => false
  | none => false

/-- `has_func_import` (may panic through
`imported_func_sig_by_index`). -/
def hasFuncImport (m : Module) (namespace_ field : Name) (sig : FunctionType) :
    Option Bool :=
  match m.importSection with
  | none => some false
  | some sec =>
    match sec.find? fun e => decide (e.module = namespace_ ∧ e.field = field) with
    | none => some false
    | some imp =>
      match imp.external with
      | .function index =>
        match importedFuncSigByIndex m index with
        | some resolved => some (resolved = sig)
        | none => none
      | _ => some false

/-- `IsImported::is_imported`. -/
def isImported (it : ImportType) (m : Module) : Option Bool :=
  match m.importSection with
  | none => some false
  | some sec =>
    match it with
    | .function ns f sig => hasFuncImport m ns f sig
    | .global ns f => some (hasGlobalImport sec ns f)
    | .memory ns f => some (hasMemoryImport sec ns f)
    | .table ns f => some (hasTableImport sec ns f)

/-- `ImportCheck::check`: the status of one allowed import against the
module (kind mismatches are malformed; a function import's signature is
resolved through `imported_func_sig_by_index`, which receives the
entry's **type index**). -/
def check (it : ImportType) (m : Module) : Option ImportStatus :=
  let moduleStr : Name :=
    match it with
    | .function ns _ _ => ns
    | .global ns _ => ns
    | .memory ns _ => ns
    | .table ns _ => ns
  let fieldStr : Name :=
    match it with
    | .function _ f _ => f
    | .global _ f => f
    | .memory _ f => f
    | .table _ f => f
  let funcSig : Option FunctionType :=
    match it with
    | .function _ _ sig => some sig
    | _ => none
  match m.importSection with
  | none => some .notFound
  | some sec =>
    match sec.find? fun e => decide (e.field = fieldStr ∧ moduleStr = e.module) with
    | none => some .notFound
    | some entry =>
      match entry.external with
      | .function idx =>
        match funcSig with
        | some sig =>
          match importedFuncSigByIndex m idx with
          | some resolved => some (if sig = resolved then .good else .malformed)
          | none => none
        | none => some .malformed
      | .global _ =>
        match it with
        | .global _ _ => some .good
        | _ => some .malformed
      | .memory _ =>
        match it with
        | .memory _ _ => some .good
        | _ => some .malformed
      | .table _ =>
        match it with
        | .table _ _ => some .good
        | _ => some .malformed

/-- Lazy `\.map(is_imported).find(== false).is_none()`: `true` iff every
listed entry is imported (stops at the first `false`). -/
def allImported (m : Module) : List ImportType → Option Bool
  | [] => some true
  | it :: rest =>
    match isImported it m with
    | none => none
    | some false => some false
    | some true => allImported m rest

/-- Lazy `.map(check).find(== Malformed).is_none()`. -/
def noneMalformed (m : Module) : List ImportType → Option Bool
  | [] => some true
  | it :: rest =>
    match check it m with
    | none => none
    | some .malformed => some false
    | some _ => noneMalformed m rest

/-- Eager checklist (`.map(check).collect()`). -/
def checklist (m : Module) : List ImportType → Option (List ImportStatus)
  | [] => some []
  | it :: rest =>
    match check it m with
    | none => none
    | some st =>
      match checklist m rest with
      | some sts => some (st :: sts)
      | none => none

end VerifyImports

/-- `VerifyImports::validate` (`src/libchisel/src/verifyimports.rs`,
lines 298-350): dispatch on `(require_all, allow_unlisted)`; in the
`(false, false)` arm, accept iff the number of `Good` checklist entries
equals the number of imports in the module. -/
def VerifyImportsPass.validate (v : VerifyImportsPass) (m : Module) : Option Bool :=
  let importSectionLen : Nat :=
    match m.importSection with
    | some sec => sec.length
    | none => 0
  match v.require_all, v.allow_unlisted with
  | true, true => VerifyImports.allImported m v.entries
  | true, false =>
    match VerifyImports.allImported m v.entries with
    | some b => some (b && decide (v.entries.length = importSectionLen))
    | none => none
  | false, true => VerifyImports.noneMalformed m v.entries
  | false, false =>
    match VerifyImports.checklist m v.entries with
    | some sts =>
      some (decide ((sts.filter fun st => st = .good).length = importSectionLen))
    | none => none

/-- The ewasm preset of `VerifyImports::with_preset`: the allowed
`ethereum` function imports, with `require_all = false` and
`allow_unlisted = false`. -/
def verifyImportsEwasm : VerifyImportsPass :=
  { entries := [
      .function (ascii "ethereum") (ascii "useGas") ⟨[.I64], none⟩,
      .function (ascii "ethereum") (ascii "getGasLeft") ⟨[], some .I64⟩,
      .function (ascii "ethereum") (ascii "getAddress") ⟨[.I32], none⟩,
      .function (ascii "ethereum") (ascii "getExternalBalance") ⟨[.I32, .I32], none⟩,
      .function (ascii "ethereum") (ascii "getBlockHash") ⟨[.I64, .I32], some .I32⟩,
      .function (ascii "ethereum") (ascii "call") ⟨[.I64, .I32, .I32, .I32, .I32], some .I32⟩,
      .function (ascii "ethereum") (ascii "callCode") ⟨[.I64, .I32, .I32, .I32, .I32], some .I32⟩,
      .function (ascii "ethereum") (ascii "callDelegate") ⟨[.I64, .I32, .I32, .I32], some .I32⟩,
      .function (ascii "ethereum") (ascii "callStatic") ⟨[.I64, .I32, .I32, .I32], some .I32⟩,
      .function (ascii "ethereum") (ascii "create") ⟨[.I64, .I32, .I32, .I32], some .I32⟩,
      .function (ascii "ethereum") (ascii "callDataCopy") ⟨[.I32, .I32, .I32], none⟩,
      .function (ascii "ethereum") (ascii "getCallDataSize") ⟨[], some .I32⟩,
      .function (ascii "ethereum") (ascii "getCodeSize") ⟨[], some .I32⟩,
      .function (ascii "ethereum") (ascii "externalCodeCopy") ⟨[.I32, .I32, .I32, .I32], none⟩,
      .function (ascii "ethereum") (ascii "getCaller") ⟨[.I32], none⟩,
      .function (ascii "ethereum") (ascii "getCallValue") ⟨[.I32], none⟩,
      .function (ascii "ethereum") (ascii "getBlockDifficulty") ⟨[.I32], none⟩,
      .function (ascii "ethereum") (ascii "getBlockCoinbase") ⟨[.I32], none⟩,
      .function (ascii "ethereum") (ascii "getBlockNumber") ⟨[], some .I64⟩,
      .function (ascii "ethereum") (ascii "getBlockGasLimit") ⟨[], some .I64⟩,
      .function (ascii "ethereum") (ascii "getBlockTimestamp") ⟨[], some .I64⟩,
      .function (ascii "ethereum") (ascii "getTxGasPrice") ⟨[.I32], none⟩,
      .function (ascii "ethereum") (ascii "getTxOrigin") ⟨[.I32], none⟩,
      .function (ascii "ethereum") (ascii "storageStore") ⟨[.I32, .I32], none⟩,
      .function (ascii "ethereum") (ascii "storageLoad") ⟨[.I32, .I32], none⟩,
      .function (ascii "ethereum") (ascii "log") ⟨[.I32, .I32, .I32, .I32, .I32, .I32, .I32], none⟩,
      .function (ascii "ethereum") (ascii "getReturnDataSize") ⟨[], some .I32⟩,
      .function (ascii "ethereum") (ascii "returnDataCopy") ⟨[.I32, .I32, .I32], none⟩,
      .function (ascii "ethereum") (ascii "finish") ⟨[.I32, .I32], none⟩,
      .function (ascii "ethereum") (ascii "revert") ⟨[.I32, .I32], none⟩,
      .function (ascii "ethereum") (ascii "selfDestruct") ⟨[.I32], none⟩],
    require_all := false,
    allow_unlisted := false }

/-- `VerifyImports::with_preset`. -/
def verifyImportsWithPreset (preset : String) : Option VerifyImportsPass :=
  match preset with
  | "ewasm" => some verifyImportsEwasm
  | _ => none

namespace VerifyExports

/-- `ExportType` (`src/libchisel/src/verifyexports.rs`). -/
inductive ExportType
  | function (field : Name) (sig : FunctionType)
  | global (field : Name)
  | memory (field : Name)
  | table (field : Name)
deriving DecidableEq

end VerifyExports

/-- `VerifyExports`. -/
structure VerifyExportsPass where
  entries : List VerifyExports.ExportType
  allow_unlisted : Bool

/-- `VerifyExports::with_preset` ewasm entries: function export `main`
with empty signature and memory export `memory`; no unlisted exports. -/
def verifyExportsEwasm : VerifyExportsPass :=
  { entries := [.function (ascii "main") ⟨[], none⟩, .memory (ascii "memory")],
    allow_unlisted := false }

/-- `VerifyExports::with_preset`. -/
def verifyExportsWithPreset (preset : String) : Option VerifyExportsPass :=
  match preset with
  | "ewasm" => some verifyExportsEwasm
  | _ => none

namespace VerifyExports

/-- `func_export_index_by_name`: internal index of the first export with
the given field name, provided it is a function export. -/
def funcExportIndexByName (exports : List ExportEntry) (fieldStr : Name) : Option Nat :=
  match exports.find? fun e => decide (e.field = fieldStr) with
  | some entry =>
    match entry.internal with
    | .function index => some index
    | _ => none
  | none => none

/-- `func_import_section_len`: number of function imports, as `u32`. -/
def funcImportSectionLen (imports : List ImportEntry) : Nat :=
  (imports.filter fun e =>
    match e.external with
    | .function _ => true
    | _ => false).length % 2 ^ 32

/-- Wrapping `u32` subtraction (release-build semantics of `a - b`; a
debug build panics on underflow, and in release the wrapped index makes
the subsequent function-section lookup panic instead). -/
def sub32 (a b : Nat) : Nat :=
  (a % 2 ^ 32 + 2 ^ 32 - b % 2 ^ 32) % 2 ^ 32

/-- `func_type_ref`: type reference of the function-section entry at
`func_index` (out of bounds is a panic, i.e. `none`). -/
def funcTypeRef (funcs : List Nat) (funcIndex : Nat) : Option Nat :=
  funcs.get? funcIndex

/-- `func_sig_by_index` (`src/libchisel/src/verifyexports.rs`, lines
144-175).  Outer `none` is a panic; the inner option is the Rust return
value.  With both a type and an import section present the
function-import count is subtracted from the export's index before
indexing the function section. -/
def funcSigByIndex (m : Module) (index : Nat) : Option (Option FunctionType) :=
  match m.functionSection with
  | none => some none
  | some funcSection =>
    match m.typeSection, m.importSection with
    | some typeSection, some importSection =>
      match funcTypeRef funcSection (sub32 index (funcImportSectionLen importSection)) with
      | none => none
      | some tref =>
        match typeSection.get? tref with
        | none => none
        | some ft => some (some ft)
    | some typeSection, none =>
      match funcTypeRef funcSection index with
      | none => none
      | some tref =>
        match typeSection.get? tref with
        | none => none
        | some ft => some (some ft)
    | none, some _ => some none
    | none, none => some none

/-- `has_func_export`. -/
def hasFuncExport (m : Module) (field : Name) (sig : FunctionType) : Option Bool :=
  match m.exportSection with
  | none => some false
  | some sec =>
    match funcExportIndexByName sec field with
    | some index =>
      match funcSigByIndex m index with
      | none => none
      | some (some resolved) => some (sig = resolved)
      | some none => some false
    | none => some false

/-- `has_global_export`. -/
def hasGlobalExport (sec : List ExportEntry) (field : Name) : Bool :=
  match sec.find? fun e => decide (e.field = field) with
  | some e =>
    match e.internal with
    | .global _ => true
    | _ => false
  | none => false

/-- `has_memory_export`. -/
def hasMemoryExport (sec : List ExportEntry) (field : Name) : Bool :=
  match sec.find? fun e => decide (e.field = field) with
  | some e =>
    match e.internal with
    | .memory _ => true
    | _ => false
  | none => false

/-- `has_table_export`. -/
def hasTableExport (sec : List ExportEntry) (field : Name) : Bool :=
  match sec.find? fun e => decide (e.field = field) with
  | some e =>
    match e.internal with
    | .table _ => true
    | _ => false
  | none => false

/-- `IsExported::is_exported`. -/
def isExported (e : ExportType) (m : Module) : Option Bool :=
  match m.exportSection with
  | none => some false
  | some sec =>
    match e with
    | .function f sig => hasFuncExport m f sig
    | .global f => some (hasGlobalExport sec f)
    | .memory f => some (hasMemoryExport sec f)
    | .table f => some (hasTableExport sec f)

/-- Lazy `.map(is_exported).find(== false).is_some()`. -/
def findNotExported (m : Module) : List ExportType → Option Bool
  | [] => some false
  | e :: rest =>
    match isExported e m with
    | none => none
    | some false => some true
    | some true => findNotExported m rest

end VerifyExports

/-- `VerifyExports::validate`: reject when a required export is missing,
then compare the export count against the allowed list (`allow_unlisted`
decides the verdict on a mismatch). -/
def VerifyExportsPass.validate (v : VerifyExportsPass) (m : Module) : Option Bool :=
  match VerifyExports.findNotExported m v.entries with
  | none => none
  | some true => some false
  | some false =>
    let moduleExportCount : Nat :=
      match m.exportSection with
      | some sec => sec.length
      | none => 0
    if v.entries.length ≠ moduleExportCount then some v.allow_unlisted
    else some true

/-- `cmp_internal_variant`: discriminant equality of two export
references. -/
def cmpInternalVariant : Internal → Internal → Bool
  | .function _, .function _ => true
  | .table _, .table _ => true
  | .memory _, .memory _ => true
  | .global _, .global _ => true
  | _, _ => false

/-- `ExportWhitelist` (`src/libchisel/src/trimexports.rs`). -/
structure ExportWhitelist where
  entries : List ExportEntry

/-- `ExportWhitelist::lookup`: an export is valid iff some whitelist
entry has the same field name and the same export kind. -/
def ExportWhitelist.lookup (w : ExportWhitelist) (e : ExportEntry) : Bool :=
  (w.entries.find? fun matched =>
    decide (e.field = matched.field) && cmpInternalVariant e.internal matched.internal).isSome

/-- `TrimExports`. -/
structure TrimExports where
  whitelist : ExportWhitelist

/-- `TrimExports::with_preset`. -/
def TrimExports.withPreset (preset : String) : Option TrimExports :=
  match preset with
  | "ewasm" => some ⟨⟨[ExportEntry.new (ascii "main") (.function 0),
      ExportEntry.new (ascii "memory") (.memory 0)]⟩⟩
  | "pwasm" => some ⟨⟨[ExportEntry.new (ascii "_call") (.function 0)]⟩⟩
  | _ => none

/-- `TrimExports::trim_exports`: restrict the export section to
whitelisted entries; report change iff entries were removed. -/
def TrimExports.trimExports (t : TrimExports) (m : Module) : Bool × Module :=
  match m.exportSection with
  | some entries =>
    let newSection := entries.filter fun e => t.whitelist.lookup e
    if newSection.length < entries.length then
      (true, ⟨replaceFirstExportSec m.sections newSection⟩)
    else (false, m)
  | none => (false, m)

namespace Imports

/-- `ImportType` (`src/libchisel/src/imports.rs`). -/
inductive ImportType
  | function (module_ field : Name) (sig : FunctionType)
  | global (module_ field : Name)
  | memory (module_ field : Name)
  | table (module_ field : Name)
deriving DecidableEq

/-- `ImportType::module`. -/
def ImportType.module : ImportType → Name
  | .function m _ _ => m
  | .global m _ => m
  | .memory m _ => m
  | .table m _ => m

/-- `ImportType::field`. -/
def ImportType.field : ImportType → Name
  | .function _ f _ => f
  | .global _ f => f
  | .memory _ f => f
  | .table _ f => f

/-- `ImportList`. -/
abbrev ImportList := List ImportType

/-- `ImportList::lookup_by_field`: first entry with the given field. -/
def lookupByField (l : ImportList) (nm : Name) : Option ImportType :=
  l.find? fun imp => decide (imp.field = nm)

/-- `ImportList::with_preset("ewasm")`. -/
def ewasmList : ImportList :=
  [.function (ascii "ethereum") (ascii "useGas") ⟨[.I64], none⟩,
   .function (ascii "ethereum") (ascii "getGasLeft") ⟨[], some .I64⟩,
   .function (ascii "ethereum") (ascii "getAddress") ⟨[.I32], none⟩,
   .function (ascii "ethereum") (ascii "getExternalBalance") ⟨[.I32, .I32], none⟩,
   .function (ascii "ethereum") (ascii "getBlockHash") ⟨[.I64, .I32], some .I32⟩,
   .function (ascii "ethereum") (ascii "call") ⟨[.I64, .I32, .I32, .I32, .I32], some .I32⟩,
   .function (ascii "ethereum") (ascii "callCode") ⟨[.I64, .I32, .I32, .I32, .I32], some .I32⟩,
   .function (ascii "ethereum") (ascii "callDelegate") ⟨[.I64, .I32, .I32, .I32], some .I32⟩,
   .function (ascii "ethereum") (ascii "callStatic") ⟨[.I64, .I32, .I32, .I32], some .I32⟩,
   .function (ascii "ethereum") (ascii "create") ⟨[.I64, .I32, .I32, .I32], some .I32⟩,
   .function (ascii "ethereum") (ascii "callDataCopy") ⟨[.I32, .I32, .I32], none⟩,
   .function (ascii "ethereum") (ascii "getCallDataSize") ⟨[], some .I32⟩,
   .function (ascii "ethereum") (ascii "getCodeSize") ⟨[], some .I32⟩,
   .function (ascii "ethereum") (ascii "getExternalCodeSize") ⟨[.I32], some .I32⟩,
   .function (ascii "ethereum") (ascii "externalCodeCopy") ⟨[.I32, .I32, .I32, .I32], none⟩,
   .function (ascii "ethereum") (ascii "codeCopy") ⟨[.I32, .I32, .I32], none⟩,
   .function (ascii "ethereum") (ascii "getCaller") ⟨[.I32], none⟩,
   .function (ascii "ethereum") (ascii "getCallValue") ⟨[.I32], none⟩,
   .function (ascii "ethereum") (ascii "getBlockDifficulty") ⟨[.I32], none⟩,
   .function (ascii "ethereum") (ascii "getBlockCoinbase") ⟨[.I32], none⟩,
   .function (ascii "ethereum") (ascii "getBlockNumber") ⟨[], some .I64⟩,
   .function (ascii "ethereum") (ascii "getBlockGasLimit") ⟨[], some .I64⟩,
   .function (ascii "ethereum") (ascii "getBlockTimestamp") ⟨[], some .I64⟩,
   .function (ascii "ethereum") (ascii "getTxGasPrice") ⟨[.I32], none⟩,
   .function (ascii "ethereum") (ascii "getTxOrigin") ⟨[.I32], none⟩,
   .function (ascii "ethereum") (ascii "storageStore") ⟨[.I32, .I32], none⟩,
   .function (ascii "ethereum") (ascii "storageLoad") ⟨[.I32, .I32], none⟩,
   .function (ascii "ethereum") (ascii "log") ⟨[.I32, .I32, .I32, .I32, .I32, .I32, .I32], none⟩,
   .function (ascii "ethereum") (ascii "getReturnDataSize") ⟨[], some .I32⟩,
   .function (ascii "ethereum") (ascii "returnDataCopy") ⟨[.I32, .I32, .I32], none⟩,
   .function (ascii "ethereum") (ascii "finish") ⟨[.I32, .I32], none⟩,
   .function (ascii "ethereum") (ascii "revert") ⟨[.I32, .I32], none⟩,
   .function (ascii "ethereum") (ascii "selfDestruct") ⟨[.I32], none⟩]

/-- `ImportList::with_preset("eth2")`. -/
def eth2List : ImportList :=
  [.function (ascii "eth2") (ascii "loadPreStateRoot") ⟨[.I32], none⟩,
   .function (ascii "eth2") (ascii "blockDataSize") ⟨[], some .I32⟩,
   .function (ascii "eth2") (ascii "blockDataCopy") ⟨[.I32, .I32, .I32], none⟩,
   .function (ascii "eth2") (ascii "savePostStateRoot") ⟨[.I32], none⟩,
   .function (ascii "eth2") (ascii "pushNewDeposit") ⟨[.I32, .I32], none⟩]

/-- `ImportList::with_preset("debug")`. -/
def debugList : ImportList :=
  [.function (ascii "debug") (ascii "print32") ⟨[.I32], none⟩,
   .function (ascii "debug") (ascii "print64") ⟨[.I64], none⟩,
   .function (ascii "debug") (ascii "printMem") ⟨[.I32, .I32], none⟩,
   .function (ascii "debug") (ascii "printMemHex") ⟨[.I32, .I32], none⟩,
   .function (ascii "debug") (ascii "printStorage") ⟨[.I32], none⟩,
   .function (ascii "debug") (ascii "printStorageHex") ⟨[.I32], none⟩]

/-- `ImportList::with_preset("bignum")`. -/
def bignumList : ImportList :=
  [.function (ascii "bignum") (ascii "mul256") ⟨[.I32, .I32, .I32], none⟩,
   .function (ascii "bignum") (ascii "umulmod256") ⟨[.I32, .I32, .I32, .I32], none⟩]

end Imports

/-- `ImportInterface` (`src/libchisel/src/remapimports.rs`): an import
list and an optional field prefix. -/
structure ImportInterface where
  imports : Imports.ImportList
  prefixStr : Option Name

/-- `RemapImports`. -/
structure RemapImportsPass where
  interfaces : List ImportInterface

/-- `RemapImports::with_preset`: strip `_`, spaces, newlines and tabs
from the preset string, split on commas, and map each piece to an
interface. -/
def remapImportsWithPreset (preset : String) : Option RemapImportsPass :=
  let presets := String.mk (preset.toList.filter fun c =>
    c ≠ '_' && c ≠ ' ' && c ≠ '\n' && c ≠ '\t')
  let pieces := presets.splitOn ","
  (pieces.mapM fun p =>
    match p with
    | "ewasm" => some (ImportInterface.mk Imports.ewasmList (some (ascii "ethereum_")))
    | "eth2" => some (ImportInterface.mk Imports.eth2List (some (ascii "eth2_")))
    | "debug" => some (ImportInterface.mk Imports.debugList (some (ascii "debug_")))
    | "bignum" => some (ImportInterface.mk Imports.bignumList (some (ascii "bignum_")))
    | _ => none).map RemapImportsPass.mk

/-- `RemapImports::remap_from_list`: rewrite one import entry through an
interface; `true` iff it was remapped. -/
def remapFromList (iface : ImportInterface) (entry : ImportEntry) : ImportEntry × Bool :=
  match iface.prefixStr with
  | some pfx =>
    if entry.field.length > pfx.length && decide (pfx = entry.field.take pfx.length) then
      match Imports.lookupByField iface.imports (entry.field.drop pfx.length) with
      | some imp => (⟨imp.module, imp.field, entry.external⟩, true)
      | none => (entry, false)
    else (entry, false)
  | none =>
    match Imports.lookupByField iface.imports entry.field with
    | some imp => (⟨imp.module, imp.field, entry.external⟩, true)
    | none => (entry, false)

/-- Apply one interface to all entries of an import section. -/
def applyInterface (iface : ImportInterface) (entries : List ImportEntry) :
    List ImportEntry × Bool :=
  entries.foldr
    (fun e (acc : List ImportEntry × Bool) =>
      let r := remapFromList iface e
      (r.1 :: acc.1, r.2 || acc.2))
    ([], false)

/-- Replace the first import section's entries. -/
def replaceFirstImportSec : List Section → List ImportEntry → List Section
  | [], _ => []
  | .importSec _ :: rest, es => .importSec es :: rest
  | s :: rest, es => s :: replaceFirstImportSec rest es

/-- `RemapImports::translate_inplace`: apply the interfaces in order to
the import section; report whether any entry was rewritten. -/
def RemapImportsPass.translateInplace (r : RemapImportsPass) (m : Module) :
    Bool × Module :=
  match m.importSection with
  | none => (false, m)
  | some entries =>
    let res := r.interfaces.foldl
      (fun (acc : List ImportEntry × Bool) iface =>
        let step := applyInterface iface acc.1
        (step.1, acc.2 || step.2))
      (entries, false)
    (res.2, ⟨replaceFirstImportSec m.sections res.1⟩)

/-- `Repack::translate`: rebuild through the parity-wasm builder
(`builder::from_module(..).build()`), which keeps the standard sections
in canonical order, skips empty ones, and discards custom sections
including the name section.  Always returns a module. -/
def repackTranslate (m : Module) : Module :=
  ⟨(match m.typeSection with
     | some ts => if ts.isEmpty then [] else [Section.typeSec ts]
     | none => []) ++
   (match m.importSection with
     | some es => if es.isEmpty then [] else [Section.importSec es]
     | none => []) ++
   (match m.functionSection with
     | some fs => if fs.isEmpty then [] else [Section.functionSec fs]
     | none => []) ++
   (match m.sections.findSome? fun s =>
      match s with
      | .tableSec ts => some ts
      | _ => none with
     | some ts => if ts.isEmpty then [] else [Section.tableSec ts]
     | none => []) ++
   (match m.memorySection with
     | some ms => if ms.isEmpty then [] else [Section.memorySec ms]
     | none => []) ++
   (match m.sections.findSome? fun s =>
      match s with
      | .globalSec gs => some gs
      | _ => none with
     | some gs => if gs.isEmpty then [] else [Section.globalSec gs]
     | none => []) ++
   (match m.exportSection with
     | some es => if es.isEmpty then [] else [Section.exportSec es]
     | none => []) ++
   (match m.startSection with
     | some i => [Section.startSec i]
     | none => []) ++
   (match m.sections.findSome? fun s =>
      match s with
      | .elementSec es => some es
      | _ => none with
     | some es => if es.isEmpty then [] else [Section.elementSec es]
     | none => []) ++
   (match m.codeSection with
     | some bs => if bs.isEmpty then [] else [Section.codeSec bs]
     | none => []) ++
   (match m.sections.findSome? fun s =>
      match s with
      | .dataSec ds => some ds
      | _ => none with
     | some ds => if ds.isEmpty then [] else [Section.dataSec ds]
     | none => [])⟩

/-- `wasm_snip::Options` as exposed through `Snip`. -/
structure SnipOptions where
  snip_rust_fmt_code : Bool
  snip_rust_panicking_code : Bool
  skip_producers_section : Bool
deriving DecidableEq

/-- `check_bool_option` (`src/libchisel/src/snip.rs`). -/
def checkBoolOption (config : OptionMap) (opt : String) (default : Bool) : Bool :=
  match config.get opt with
  | some value => value = "true"
  | none => default

/-- `Snip::with_defaults` option values. -/
def snipDefaultOptions : SnipOptions :=
  ⟨true, true, true⟩

/-- `Snip::with_config`. -/
def snipWithConfig (config : OptionMap) : SnipOptions :=
  ⟨checkBoolOption config "snip_rust_fmt_code" true,
   checkBoolOption config "snip_rust_panicking_code" true,
   checkBoolOption config "skip_producers_section" true⟩

/-- The external wasm-snip back end: consumes the encoded module and
produces new bytes or a message (an external collaborator, so a
parameter of the embedding). -/
abbrev SnipBackend := SnipOptions → List Nat → Except String (List Nat)

/-- `Snip::translate`: encode, hand to the back end, decode the output. -/
def snipTranslate (backend : SnipBackend) (opts : SnipOptions) (m : Module) :
    Except ModuleError (Option Module) :=
  let serialized := m.toBytes
  match backend opts serialized with
  | .error e => .error (.custom e)
  | .ok out =>
    match Module.fromBytes out with
    | some m2 => .ok (some m2)
    | none => .error (.custom "deserialization failed")

/-- `deployer_code()` (`src/libchisel/src/deployer.rs`): the fixed
hand-written wrapper module, byte for byte. -/
def deployerCode : List Nat :=
  [0, 97, 115, 109, 1, 0, 0, 0, 1, 19, 4, 96, 0, 1, 127, 96, 3, 127, 127, 127, 0, 96, 2, 127,
   127, 0, 96, 0, 0, 2, 62, 3, 8, 101, 116, 104, 101, 114, 101, 117, 109, 11, 103, 101, 116,
   67, 111, 100, 101, 83, 105, 122, 101, 0, 0, 8, 101, 116, 104, 101, 114, 101, 117, 109, 8,
   99, 111, 100, 101, 67, 111, 112, 121, 0, 1, 8, 101, 116, 104, 101, 114, 101, 117, 109, 6,
   102, 105, 110, 105, 115, 104, 0, 2, 3, 2, 1, 3, 5, 3, 1, 0, 1, 7, 17, 2, 6, 109, 101, 109,
   111, 114, 121, 2, 0, 4, 109, 97, 105, 110, 0, 3, 10, 44, 1, 42, 1, 3, 127, 16, 0, 33, 0,
   65, 0, 65, 0, 32, 0, 16, 1, 32, 0, 65, 4, 107, 40, 2, 0, 33, 2, 32, 0, 65, 4, 107, 32, 2,
   107, 33, 1, 32, 1, 32, 2, 16, 2, 11]

/-- The wrapper module decoded from `deployerCode` (the structural form
of the hand-written deployer; `deployerWrapper_fromBytes` below checks
it against the decoder). -/
def deployerWrapper : Module :=
  ⟨[.typeSec [⟨[], some .I32⟩, ⟨[.I32, .I32, .I32], none⟩, ⟨[.I32, .I32], none⟩, ⟨[], none⟩],
    .importSec [⟨ascii "ethereum", ascii "getCodeSize", .function 0⟩,
      ⟨ascii "ethereum", ascii "codeCopy", .function 1⟩,
      ⟨ascii "ethereum", ascii "finish", .function 2⟩],
    .functionSec [3],
    .memorySec [⟨1, none, false⟩],
    .exportSec [⟨ascii "memory", .memory 0⟩, ⟨ascii "main", .function 3⟩],
    .codeSec [⟨[⟨3, .I32⟩],
      [.Call 0, .SetLocal 0, .I32Const 0, .I32Const 0, .GetLocal 0, .Call 1,
       .GetLocal 0, .I32Const 4, .I32Sub, .I32Load 2 0, .SetLocal 2,
       .GetLocal 0, .I32Const 4, .I32Sub, .GetLocal 2, .I32Sub, .SetLocal 1,
       .GetLocal 1, .GetLocal 2, .Call 2, .End]⟩]]⟩

theorem deployerWrapper_toBytes : deployerWrapper.toBytes = deployerCode := by rfl

theorem deployerWrapper_fromBytes :
    Module.fromBytes deployerCode = some deployerWrapper := by
  have h := fromBytes_toBytes deployerWrapper (by rfl)
  rw [deployerWrapper_toBytes] at h
  exact h

/-- Replace the first memory section's entries. -/
def replaceFirstMemorySec : List Section → List MemoryType → List Section
  | [], _ => []
  | .memorySec _ :: rest, es => .memorySec es :: rest
  | s :: rest, es => s :: replaceFirstMemorySec rest es

/-- `create_custom_deployer`: decode the fixed wrapper (`expect`),
rewrite the first memory entry to `payload.len() as u32 / 65536 + 1`
pages, and append a custom section named `deployer` whose payload is the
payload followed by the little-endian 32-bit payload length. -/
def createCustomDeployer (payload : List Nat) : Option Module :=
  match Module.fromBytes deployerCode with
  | none => none
  | some module0 =>
    let memoryInitial := payload.length % 2 ^ 32 / 65536 + 1
    let memType := MemoryType.new memoryInitial none false
    match module0.memorySection with
    | none => none
    | some entries =>
      if entries.length = 0 then none
      else
        let m1 : Module := ⟨replaceFirstMemorySec module0.sections (entries.set 0 memType)⟩
        let customPayload := payload ++ le4 (payload.length % 2 ^ 32)
        some ⟨m1.sections ++ [.custom (CustomSection.new (ascii "deployer") customPayload)]⟩

/-- `i32` reinterpretation of a length (`payload.len() as i32`), as the
signed value. -/
def i32cast (n : Nat) : Int :=
  if n % 2 ^ 32 < 2 ^ 31 then (n % 2 ^ 32 : Nat) else (n % 2 ^ 32 : Nat) - 2 ^ 32

/-- `create_memory_deployer`: the module produced by the builder chain —
an `ethereum.finish` import, a dummy defined function, a `main` function
calling `finish(0, len(payload))`, exports `main` and `memory`, a memory
of the sized minimum and the payload as a data segment at offset 0. -/
def createMemoryDeployer (payload : List Nat) : Module :=
  let memoryInitial := payload.length % 2 ^ 32 / 65536 + 1
  ⟨[.typeSec [⟨[.I32, .I32], none⟩, ⟨[], none⟩],
    .importSec [⟨ascii "ethereum", ascii "finish", .function 0⟩],
    .functionSec [0, 1],
    .memorySec [⟨memoryInitial, none, false⟩],
    .exportSec [⟨ascii "main", .function 2⟩, ⟨ascii "memory", .memory 0⟩],
    .codeSec [⟨[], [.End]⟩,
      ⟨[], [.I32Const 0, .I32Const (i32cast payload.length), .Call 0, .End]⟩],
    .dataSec [⟨0, [.I32Const 0, .End], payload⟩]]⟩

/-- `Deployer` (`src/libchisel/src/deployer.rs`). -/
inductive Deployer
  | memory (payload : List Nat)
  | customSection (payload : List Nat)

/-- `Deployer::with_preset`. -/
def Deployer.withPreset (preset : String) (payload : List Nat) : Option Deployer :=
  match preset with
  | "memory" => some (.memory payload)
  | "customsection" => some (.customSection payload)
  | _ => none

/-- `Deployer::create` (ModuleCreator; outer `none` is the wrapper
decoding panic, which cannot occur). -/
def Deployer.create : Deployer → Option Module
  | .memory payload => some (createMemoryDeployer payload)
  | .customSection payload => createCustomDeployer payload

/-!
## Driver, results and writer (`src/chisel`)
-/

/-- `ModuleError` display strings (`Display for ModuleError`). -/
def ModuleError.message : ModuleError → String
  | .notSupported => "Method unsupported"
  | .notFound => "Not found"
  | .custom msg => msg

instance {ε α : Type} [DecidableEq ε] [DecidableEq α] : DecidableEq (Except ε α) :=
  fun x y =>
    match x, y with
    | .ok a, .ok b =>
      if h : a = b then .isTrue (by rw [h]) else .isFalse (by intro hh; cases hh; exact h rfl)
    | .error a, .error b =>
      if h : a = b then .isTrue (by rw [h]) else .isFalse (by intro hh; cases hh; exact h rfl)
    | .ok _, .error _ => .isFalse (by intro hh; cases hh)
    | .error _, .ok _ => .isFalse (by intro hh; cases hh)

/-- `ModuleResult` (`src/chisel/src/result.rs`): a per-pass outcome
tagged with the pass kind and name. -/
inductive ModuleResult
  | creator (name : String) (result : Except ModuleError Bool)
  | translator (name : String) (result : Except ModuleError Bool)
  | validator (name : String) (result : Except ModuleError Bool)
deriving DecidableEq

/-- `RulesetResult`. -/
structure RulesetResult where
  ruleset_name : String
  results : List ModuleResult
  output_path : String
  output_module : Option Module
deriving DecidableEq

/-- `RulesetResult::new`. -/
def RulesetResult.new (name : String) : RulesetResult :=
  ⟨name, [], "", none⟩

/-- `ChiselResult`. -/
abbrev ChiselResult := List RulesetResult

/-- Content written to a file: raw bytes (`bin`) or UTF-8 text (`hex`). -/
inductive FileOut
  | bin (bytes : List Nat)
  | text (s : String)
deriving DecidableEq

/-- The file system as seen by the writer (external collaborator). -/
abbrev FsEnv := String → FileOut → Except String Unit

/-- Lowercase hex digit of a value below 16 (`0`..`9` then `a`..`f`). -/
def hexDigitChar (n : Nat) : Char :=
  if n < 10 then Char.ofNat (48 + n) else Char.ofNat (87 + n)

/-- Two lowercase hex characters of one byte. -/
def hexByte (b : Nat) : List Char :=
  [hexDigitChar (b / 16 % 16), hexDigitChar (b % 16)]

/-- `hex::encode`: lowercase hex of a byte sequence. -/
def hexEncode (bs : List Nat) : String :=
  String.mk (bs.foldr (fun b acc => hexByte b ++ acc) [])

/-- `ChiselOutputWriter` (`wat` is gated on the wabt feature and not
part of this build). -/
inductive ChiselOutputWriter
  | bin (m : Module) (path : String)
  | hex (m : Module) (path : String)

/-- `ChiselOutputWriter::write`: serialize and write the module; raw
binary to a standard stream is refused before any file operation.  The
returned list logs the file operations performed. -/
def ChiselOutputWriter.write (fs : FsEnv) :
    ChiselOutputWriter → Except String Unit × List (String × FileOut)
  | .bin m path =>
    if path = "/dev/stdout" ∨ path = "/dev/stderr" then
      (.error "cannot write raw binary to a standard stream", [])
    else
      let bytes := m.toBytes
      (fs path (.bin bytes), [(path, .bin bytes)])
  | .hex m path =>
    let hex := hexEncode m.toBytes
    (fs path (.text hex), [(path, .text hex)])

/-- `RulesetResult::write`: `Ok(false)` with no side effect when no
mutated module is held; otherwise the module is taken out of the result
and handed to the mode's writer (`Err` on an unknown mode). -/
def RulesetResult.write (r : RulesetResult) (mode : String) (fs : FsEnv) :
    Except String Bool × RulesetResult × List (String × FileOut) :=
  match r.output_module with
  | some module_ =>
    let r2 := { r with output_module := none }
    let writer : Option ChiselOutputWriter :=
      if mode = "bin" then some (.bin module_ r.output_path)
      else if mode = "hex" then some (.hex module_ r.output_path)
      else none
    match writer with
    | some w =>
      match ChiselOutputWriter.write fs w with
      | (.ok _, ops) => (.ok true, r2, ops)
      | (.error e, ops) => (.error e, r2, ops)
    | none => (.error "invalid mode", r2, [])
  | none => (.ok false, r, [])

/-- `DriverError` (`src/chisel/src/driver.rs`); the boxed error cause is
modelled by its display string. -/
inductive DriverError
  | missingRequiredField (object field : String)
  | moduleNotFound (name : String)
  | invalidField (object field : String)
  | pathResolution (object path : String)
  | internal (object info cause : String)
deriving DecidableEq

/-- `DriverState`. -/
inductive DriverState
  | ready
  | error (e : DriverError) (partial_ : ChiselResult)
  | done (r : ChiselResult)
deriving DecidableEq

/-- Modelled from the spec: `ModuleConfig` (`src/chisel/src/config.rs`
is not present under `src/`); a pass owns a mapping from option names to
string values (§3). -/
structure ModuleConfig where
  options : OptionMap

/-- Modelled from the spec: a ruleset is a named option map plus an
ordered list of configured passes (§3); the driver consumes the pass
list front to back. -/
structure Ruleset where
  options : OptionMap
  modules : List (String × ModuleConfig)

/-- Modelled from the spec: a configuration is an ordered list of named
rulesets (§3), consumed front to back by `fire`. -/
abbrev ChiselConfig := List (String × Ruleset)

/-- `ChiselDriver`. -/
structure ChiselDriver where
  config : ChiselConfig
  state : DriverState

/-- `ChiselDriver::new`. -/
def ChiselDriver.new (config : ChiselConfig) : ChiselDriver :=
  ⟨config, .ready⟩

/-- The external collaborators used by `fire`: path canonicalisation,
file reading, the wat text parser (which passes binaries through), the
parity-wasm names-subsection parser, and the wasm-snip back end. -/
structure DriverEnv where
  canonicalize : String → Option String
  readFile : String → Except String (List Nat)
  watParse : List Nat → Except String (List Nat)
  parseNamePayload : List Nat → Option NameSec
  snipBackend : SnipBackend

/-- `Module::parse_names` (parity-wasm): lift every custom section named
`name` into the parsed representation; a subsection parse failure fails
the whole call (the driver panics on it through `expect`). -/
def parseNames (p : List Nat → Option NameSec) (m : Module) : Option Module :=
  match m.sections.mapM (fun s : Section =>
    match s with
    | Section.custom c =>
      if c.name = ascii "name" then (p c.payload).map Section.name
      else some (Section.custom c)
    | s => some s) with
  | some ss => some ⟨ss⟩
  | none => none

/-- `ChiselDriver::execute_module`: dispatch one configured pass by
name against the current module.  Outer `none` is a panic inside the
pass; `Except.error` is a driver-level error that aborts the ruleset;
otherwise the per-pass outcome and the (possibly replaced) module are
returned.  The `binaryenopt` arm is gated on the binaryen cargo feature
and absent from this build, so that name falls through to
`ModuleNotFound`. -/
def executeModule (env : DriverEnv) (name : String) (module_ : ModuleConfig)
    (wasm : Module) : Option (Except DriverError (ModuleResult × Module)) :=
  match name with
  | "checkfloat" => some (.ok (.validator name (checkFloatValidate wasm), wasm))
  | "checkstartfunc" =>
    match module_.options.get "require_start" with
    | some v =>
      if v = "true" then
        some (.ok (.validator name ((CheckStartFunc.new true).validate wasm), wasm))
      else if v = "false" then
        some (.ok (.validator name ((CheckStartFunc.new false).validate wasm), wasm))
      else some (.error (.invalidField name "require_start"))
    | none => some (.error (.missingRequiredField name "require_start"))
  | "deployer" =>
    match module_.options.get "preset" with
    | some preset =>
      match Deployer.withPreset preset wasm.toBytes with
      | some dep =>
        match dep.create with
        | some newWasm => some (.ok (.translator name (.ok true), newWasm))
        | none => none
      | none => some (.error (.invalidField name "preset"))
    | none => some (.error (.missingRequiredField name "preset"))
  | "dropnames" =>
    let r := DropSection.namesSection.dropSection wasm
    some (.ok (.translator name (.ok r.1), r.2))
  | "remapimports" =>
    match module_.options.get "preset" with
    | some preset =>
      match remapImportsWithPreset preset with
      | some rm =>
        let r := rm.translateInplace wasm
        some (.ok (.translator name (.ok r.1), r.2))
      | none => some (.error (.invalidField name "preset"))
    | none => some (.error (.missingRequiredField name "preset"))
  | "remapstart" =>
    match remapStart wasm with
    | some r => some (.ok (.translator name (.ok r.1), r.2))
    | none => none
  | "repack" => some (.ok (.translator name (.ok true), repackTranslate wasm))
  | "snip" =>
    match snipTranslate env.snipBackend snipDefaultOptions wasm with
    | .error e => some (.error (.internal "snip" "Chisel module failed" e.message))
    | .ok (some newWasm) => some (.ok (.translator name (.ok true), newWasm))
    | .ok none => some (.ok (.translator name (.ok false), wasm))
  | "trimexports" =>
    match module_.options.get "preset" with
    | some preset =>
      match TrimExports.withPreset preset with
      | some te =>
        let r := te.trimExports wasm
        some (.ok (.translator name (.ok r.1), r.2))
      | none => some (.error (.invalidField name "preset"))
    | none => some (.error (.missingRequiredField name "preset"))
  | "trimstartfunc" =>
    let r := trimStartFunc wasm
    some (.ok (.translator name (.ok r.1), r.2))
  | "verifyexports" =>
    match module_.options.get "preset" with
    | some preset =>
      match verifyExportsWithPreset preset with
      | some v =>
        match v.validate wasm with
        | some b => some (.ok (.validator name (.ok b), wasm))
        | none => none
      | none => some (.error (.invalidField name "preset"))
    | none => some (.error (.missingRequiredField name "preset"))
  | "verifyimports" =>
    match module_.options.get "preset" with
    | some preset =>
      match verifyImportsWithPreset preset with
      | some v =>
        match v.validate wasm with
        | some b => some (.ok (.validator name (.ok b), wasm))
        | none => none
      | none => some (.error (.invalidField name "preset"))
    | none => some (.error (.missingRequiredField name "preset"))
  | _ => some (.error (.moduleNotFound name))

/-- Whether a pass outcome updates the ruleset's output module (a
creator or translator reporting change). -/
def ModuleResult.didMutate : ModuleResult → Bool
  | .creator _ (.ok true) => true
  | .translator _ (.ok true) => true
  | _ => false

/-- The inner pass loop of `fire`: execute the configured passes in
order, recording outcomes, updating the output module on mutation, and
aborting the ruleset on a driver-level error. -/
def runModules (env : DriverEnv) (rr : RulesetResult) (wasm : Module) :
    List (String × ModuleConfig) → Option (Except DriverError RulesetResult)
  | [] => some (.ok rr)
  | (mname, mc) :: rest =>
    match executeModule env mname mc wasm with
    | none => none
    | some (.error e) => some (.error e)
    | some (.ok (mres, wasm2)) =>
      let rr2 := if mres.didMutate then { rr with output_module := some wasm2 } else rr
      runModules env { rr2 with results := rr2.results ++ [mres] } wasm2 rest

/-- One ruleset of `fire`: resolve the input path, read and decode the
module (parsing names eagerly), then run the pass loop. -/
def runRuleset (env : DriverEnv) (name : String) (rs : Ruleset) :
    Option (Except DriverError RulesetResult) :=
  match rs.options.get "file" with
  | none => some (.error (.missingRequiredField name "file"))
  | some binaryPath =>
    match env.canonicalize binaryPath with
    | none => some (.error (.pathResolution name binaryPath))
    | some resolved =>
      let outputPath :=
        match rs.options.get "output" with
        | some op => op
        | none => resolved
      let rr := { RulesetResult.new name with output_path := outputPath }
      match env.readFile resolved with
      | .error e => some (.error (.internal name "Failed to load file" e))
      | .ok raw =>
        match env.watParse raw with
        | .error e => some (.error (.internal name "Failed to parse input as text" e))
        | .ok bytes =>
          match Module.fromBytes bytes with
          | none => some (.error (.internal name "Deserialization failure" "decode error"))
          | some wasm0 =>
            match parseNames env.parseNamePayload wasm0 with
            | none => none
            | some wasm1 => runModules env rr wasm1 rs.modules

/-- The ruleset loop of `fire`: pop rulesets, stopping in the `Error`
state (with the remaining configuration and the results of previously
completed rulesets) on a driver-level error, else finishing `Done`. -/
def fireGo (env : DriverEnv) (results : ChiselResult) :
    ChiselConfig → Option ChiselDriver
  | [] => some ⟨[], .done results⟩
  | (name, rs) :: rest =>
    match runRuleset env name rs with
    | none => none
    | some (.error e) => some ⟨rest, .error e results⟩
    | some (.ok rr) => fireGo env (results ++ [rr]) rest

/-- `ChiselDriver::fire`: from `Ready` start fresh; from `Error`
continue with the previous results over the remaining configuration;
calling `fire` on a completed driver panics (`none`). -/
def ChiselDriver.fire (env : DriverEnv) (d : ChiselDriver) : Option ChiselDriver :=
  match d.state with
  | .done _ => none
  | .ready => fireGo env [] d.config
  | .error _ prev => fireGo env prev d.config

/-- `ChiselDriver::take_result` (panics in `Ready`). -/
def ChiselDriver.takeResult (d : ChiselDriver) : Option ChiselResult :=
  match d.state with
  | .ready => none
  | .error _ r => some r
  | .done r => some r

/-!
## Claims
-/

/-- C6: for every module `m` that decodes successfully (and is not
passed through a rebuilding pass), encoding `m` and decoding the result
yields a module whose re-encoding equals the original byte sequence
byte-for-byte.  Proved in the strongest form: decoding the encoding
yields `m` itself, so its re-encoding is literally `m.toBytes`. -/
theorem claim_c6_roundtrip (b : List Nat) (m : Module)
    (h : Module.fromBytes b = some m) :
    Module.fromBytes m.toBytes = some m :=
  fromBytes_roundtrip b m h

/-- Witness for C6 at the empty module. -/
theorem claim_c6_roundtrip_witness :
    Module.fromBytes [0, 97, 115, 109, 1, 0, 0, 0] = some ⟨[]⟩ ∧
    Module.fromBytes (Module.toBytes ⟨[]⟩) = some ⟨[]⟩ :=
  ⟨rfl, claim_c6_roundtrip [0, 97, 115, 109, 1, 0, 0, 0] ⟨[]⟩ rfl⟩

/-- C7: `checkfloat.validate` fails with `NotFound` iff the code
section is absent; otherwise it returns `Ok(true)` iff no function body
contains any floating-point instruction (the f32/f64 arithmetic,
comparison, conversion, reinterpretation, constant, load and store
opcodes collected in `isFloatInstruction`; SIMD opcodes are outside the
instruction set considered). -/
theorem claim_c7_checkfloat (m : Module) :
    (checkFloatValidate m = .error .notFound ↔ m.codeSection = none) ∧
    (∀ cs, m.codeSection = some cs →
      (checkFloatValidate m = .ok true ↔
        ∀ b ∈ cs, ∀ i ∈ b.code, isFloatInstruction i = false)) := by
  constructor
  · cases h : m.codeSection with
    | none => simp [checkFloatValidate, h]
    | some bodies =>
      simp only [checkFloatValidate, h]
      by_cases ha : bodies.any fun b => b.code.any isFloatInstruction
      · simp [ha]
      · simp [ha]
  · intro cs hcs
    simp only [checkFloatValidate, hcs]
    by_cases ha : cs.any fun b => b.code.any isFloatInstruction
    · simp only [ha, if_true]
      constructor
      · intro hcontr
        cases hcontr
      · intro hall
        exfalso
        simp only [List.any_eq_true] at ha
        obtain ⟨b, hb, i, hi, hf⟩ := ha
        have hsafe := hall b hb i hi
        rw [hsafe] at hf
        cases hf
    · simp only [ha, if_false]
      constructor
      · intro _ b hb i hi
        by_contra hne
        apply ha
        simp only [List.any_eq_true]
        exact ⟨b, hb, i, hi, by
          cases hcase : isFloatInstruction i with
          | true => rfl
          | false => exact absurd hcase hne⟩
      · intro _
        rfl

/-- Witness for C7: a module with a float-free body validates `true`,
and one without a code section fails with `NotFound`. -/
theorem claim_c7_checkfloat_witness :
    checkFloatValidate ⟨[.codeSec [⟨[], [.I32Add, .End]⟩]]⟩ = .ok true ∧
    checkFloatValidate ⟨[]⟩ = .error .notFound := by
  constructor
  · exact ((claim_c7_checkfloat ⟨[.codeSec [⟨[], [.I32Add, .End]⟩]]⟩).2
      [⟨[], [.I32Add, .End]⟩] rfl).mpr (by decide)
  · exact (claim_c7_checkfloat ⟨[]⟩).1.mpr rfl

/-- C8 counterexample: `CheckStartFunc::with_config` on an option map
without `require_start` succeeds with the value defaulted to `false`; it
does not fail with `NotSupported` as the claim states. -/
theorem claim_c8_counterexample :
    CheckStartFunc.with_config [] = Except.ok ⟨false⟩ ∧
    CheckStartFunc.with_config [] ≠ Except.error ModuleError.notSupported := by
  constructor
  · rfl
  · intro h
    cases h

/-- C8 (amended): constructing checkstartfunc from an option map in
which `require_start` is absent succeeds, with the option defaulted to
`false`. -/
theorem claim_c8_amended (cfg : OptionMap) (h : cfg.get "require_start" = none) :
    CheckStartFunc.with_config cfg = Except.ok ⟨false⟩ := by
  simp [CheckStartFunc.with_config, h]

/-- Witness for the amended C8 at the empty option map. -/
theorem claim_c8_amended_witness :
    OptionMap.get [] "require_start" = none ∧
    CheckStartFunc.with_config [] = Except.ok ⟨false⟩ :=
  ⟨rfl, claim_c8_amended [] rfl⟩

/-- The module on which C1's claimed semantics and the code diverge:
two correctly-signed ewasm imports whose type indices differ from
their positions in the import section (`useGas` at position 0 with type
index 1, `getGasLeft` at position 1 with type index 0). -/
def c1Module : Module :=
  ⟨[.typeSec [⟨[], some .I64⟩, ⟨[.I64], none⟩],
    .importSec [⟨ascii "ethereum", ascii "useGas", .function 1⟩,
      ⟨ascii "ethereum", ascii "getGasLeft", .function 0⟩]]⟩

/-- The claim's (and spec's) notion of a correct import under the ewasm
preset: the import appears in the allowed list with the correct external
kind and, for function imports, a structurally equal signature resolved
as the type-section entry at the import entry's type index. -/
def specImportOkEwasm (m : Module) (e : ImportEntry) : Bool :=
  verifyImportsEwasm.entries.any fun it =>
    match it, e.external with
    | .function ns f sig, .function t =>
      decide (ns = e.module ∧ f = e.field) &&
        decide ((match m.typeSection with
                 | some ts => ts.get? t
                 | none => none) = some sig)
    | .global ns f, .global _ => decide (ns = e.module ∧ f = e.field)
    | .memory ns f, .memory _ => decide (ns = e.module ∧ f = e.field)
    | .table ns f, .table _ => decide (ns = e.module ∧ f = e.field)
    | _, _ => false

/-- Every import present is listed and correctly signed, in the claim's
sense. -/
def specAllImportsOkEwasm (m : Module) : Bool :=
  (match m.importSection with
   | some es => es
   | none => []).all (specImportOkEwasm m)

/-- C1: the claimed equivalence fails on `c1Module`.  Both imports are
listed with correct kind and signature (signatures resolved through the
type section at the entries' type indices), so the claim demands
`Ok(true)`, but `VerifyImports::validate` returns `Ok(false)`: its
`check` hands the entry's **type index** to
`imported_func_sig_by_index`, which indexes the **import section** with
it, so each import is resolved against the other one's signature. -/
theorem claim_c1_divergence :
    verifyImportsEwasm.validate c1Module = some false ∧
    specAllImportsOkEwasm c1Module = true := by
  constructor
  · decide
  · decide

theorem write_state (r : RulesetResult) (mode : String) (fs : FsEnv) :
    (r.write mode fs).2.1 = { r with output_module := none } := by
  obtain ⟨nm, res, op, om⟩ := r
  cases om with
  | none => rfl
  | some m =>
    simp only [RulesetResult.write]
    by_cases h1 : mode = "bin"
    · simp only [h1, if_true]
      simp only [ChiselOutputWriter.write]
      by_cases h2 : op = "/dev/stdout" ∨ op = "/dev/stderr"
      · simp only [h2, if_true]
      · simp only [h2, if_false]
        cases fs op (.bin m.toBytes) <;> simp
    · simp only [h1, if_false]
      by_cases h2 : mode = "hex"
      · simp only [h2, if_true]
        simp only [ChiselOutputWriter.write]
        cases fs op (.text (hexEncode m.toBytes)) <;> simp
      · simp only [h2, if_false]

theorem write_ne_ok_false (r : RulesetResult) (mode : String) (fs : FsEnv) (m : Module)
    (h : r.output_module = some m) : (r.write mode fs).1 ≠ .ok false := by
  simp only [RulesetResult.write, h]
  by_cases h1 : mode = "bin"
  · simp only [h1, if_true]
    simp only [ChiselOutputWriter.write]
    by_cases h2 : r.output_path = "/dev/stdout" ∨ r.output_path = "/dev/stderr"
    · simp only [h2, if_true]
      intro hc
      cases hc
    · simp only [h2, if_false]
      cases fs r.output_path (.bin m.toBytes) <;> simp
  · simp only [h1, if_false]
    by_cases h2 : mode = "hex"
    · simp only [h2, if_true]
      simp only [ChiselOutputWriter.write]
      cases fs r.output_path (.text (hexEncode m.toBytes)) <;> simp
    · simp only [h2, if_false]
      intro hc
      cases hc

/-- C9: `RulesetResult::write` returns `Ok(false)` with no side effect
exactly when no mutated output module is held; a write that proceeds
takes the module out of the result, so a second write call on the same
result returns `Ok(false)`. -/
theorem claim_c9_writer (r : RulesetResult) (mode : String) (fs : FsEnv) :
    (r.output_module = none → r.write mode fs = (.ok false, r, [])) ∧
    ((r.write mode fs).1 = .ok false ↔ r.output_module = none) ∧
    (∀ mode2 fs2, r.output_module.isSome →
      (r.write mode fs).2.1.write mode2 fs2 = (.ok false, (r.write mode fs).2.1, [])) := by
  refine ⟨?_, ⟨?_, ?_⟩, ?_⟩
  · intro h
    simp only [RulesetResult.write, h]
  · intro h
    cases hm : r.output_module with
    | none => rfl
    | some m => exact absurd h (write_ne_ok_false r mode fs m hm)
  · intro h
    simp only [RulesetResult.write, h]
  · intro mode2 fs2 hs
    have hstate := write_state r mode fs
    rw [hstate]
    simp only [RulesetResult.write]

/-- Witness for C9: a result holding a module writes `hex` successfully,
and a second write returns `Ok(false)`. -/
theorem claim_c9_writer_witness :
    ((RulesetResult.mk "t" [] "out" (some ⟨[]⟩)).write "hex" (fun _ _ => .ok ())).1 ≠
        Except.ok false ∧
    (((RulesetResult.mk "t" [] "out" (some ⟨[]⟩)).write "hex"
        (fun _ _ => .ok ())).2.1.write "hex" (fun _ _ => .ok ())) =
      (.ok false, ((RulesetResult.mk "t" [] "out" (some ⟨[]⟩)).write "hex"
        (fun _ _ => .ok ())).2.1, []) := by
  constructor
  · intro hc
    have := (claim_c9_writer (RulesetResult.mk "t" [] "out" (some ⟨[]⟩)) "hex"
      (fun _ _ => .ok ())).2.1.mp hc
    cases this
  · exact (claim_c9_writer (RulesetResult.mk "t" [] "out" (some ⟨[]⟩)) "hex"
      (fun _ _ => .ok ())).2.2 "hex" (fun _ _ => .ok ()) rfl

theorem findIdx?_lt_length {α : Type} (p : α → Bool) :
    ∀ l : List α, ∀ i, l.findIdx? p = some i → i < l.length := by
  intro l
  induction l with
  | nil => intro i h; cases h
  | cons a l ih =>
    intro i h
    rw [List.findIdx?_cons, List.findIdx?_succ] at h
    by_cases hp : p a
    · simp only [hp, if_true, Option.some.injEq] at h
      subst h
      simp only [List.length_cons]
      omega
    · simp only [hp, if_false] at h
      cases hfi : List.findIdx? p l with
      | none => rw [hfi] at h; simp at h
      | some j =>
        rw [hfi] at h
        simp at h
        have := ih j hfi
        simp only [List.length_cons]
        omega

theorem findIdx?_none_any {α : Type} (p : α → Bool) (l : List α)
    (h : l.findIdx? p = none) : l.any p = false := by
  have hall := List.findIdx?_eq_none_iff.mp h
  simp only [List.any_eq_false]
  intro x hx
  simp [hall x hx]

theorem eraseIdx_any_of_filter_le_one {α : Type} (p : α → Bool) :
    ∀ l : List α, ∀ i, l.findIdx? p = some i →
      (l.filter p).length ≤ 1 → (l.eraseIdx i).any p = false := by
  intro l
  induction l with
  | nil => intro i h; cases h
  | cons a l ih =>
    intro i h hcount
    rw [List.findIdx?_cons, List.findIdx?_succ] at h
    by_cases hp : p a
    · simp only [hp, if_true, Option.some.injEq] at h
      subst h
      simp only [List.eraseIdx_zero, List.tail_cons]
      simp only [List.filter_cons, hp, if_true, List.length_cons] at hcount
      have hzero : (l.filter p).length = 0 := by omega
      simp only [List.any_eq_false]
      intro x hx
      intro hpx
      have hmem : x ∈ l.filter p := List.mem_filter.mpr ⟨hx, hpx⟩
      rw [List.length_eq_zero.mp hzero] at hmem
      cases hmem
    · simp only [hp, if_false] at h
      cases hfi : List.findIdx? p l with
      | none => rw [hfi] at h; simp at h
      | some j =>
        rw [hfi] at h
        simp at h
        subst h
        simp only [List.eraseIdx_cons_succ, List.any_cons, hp, Bool.false_or]
        apply ih j hfi
        simpa [List.filter_cons, hp] using hcount

/-- C4 counterexample: on a module with two custom sections named
`name`, one application of `dropsection(names)` removes only the first,
and the names lookup still succeeds afterwards. -/
theorem claim_c4_counterexample :
    (DropSection.namesSection.dropSection
        ⟨[.custom ⟨ascii "name", []⟩, .custom ⟨ascii "name", []⟩]⟩).1 = true ∧
    (DropSection.namesSection.dropSection
        ⟨[.custom ⟨ascii "name", []⟩, .custom ⟨ascii "name", []⟩]⟩).2.hasNamesSection =
      true := by
  constructor
  · decide
  · decide

/-- C4 (amended): for every module in which at most one section matches
the names lookup (raw custom named `name` or parsed name section) —
which holds for every decoded module whose name section does not repeat
— one application of `dropsection(names)` makes the lookup return
false, irrespective of the representation. -/
theorem claim_c4_amended (m : Module)
    (h : (m.sections.filter (secMatchesName (ascii "name"))).length ≤ 1) :
    (DropSection.namesSection.dropSection m).2.hasNamesSection = false := by
  simp only [DropSection.dropSection, DropSection.findIndex, customSectionIndexFor]
  cases hidx : m.sections.findIdx? (secMatchesName (ascii "name")) with
  | none =>
    simp only [Module.hasNamesSection]
    exact findIdx?_none_any _ m.sections hidx
  | some i =>
    have hlt := findIdx?_lt_length _ m.sections i hidx
    simp only [hlt, if_true, Module.hasNamesSection]
    exact eraseIdx_any_of_filter_le_one _ m.sections i hidx h

/-- Witness for the amended C4: a module holding a single parsed name
section and a single unrelated custom section. -/
theorem claim_c4_amended_witness :
    ((⟨[.name ⟨none, none, none⟩, .custom ⟨ascii "other", [1]⟩]⟩ :
        Module).sections.filter (secMatchesName (ascii "name"))).length ≤ 1 ∧
    (DropSection.namesSection.dropSection
        ⟨[.name ⟨none, none, none⟩, .custom ⟨ascii "other", [1]⟩]⟩).2.hasNamesSection =
      false :=
  ⟨by decide, claim_c4_amended ⟨[.name ⟨none, none, none⟩,
    .custom ⟨ascii "other", [1]⟩]⟩ (by decide)⟩

/-- C5: for every payload `p` (of representable length), the deployer
pass with preset `customsection` produces the fixed wrapper module with
the custom section named `deployer` appended, whose payload is `p`
followed by the 4-byte little-endian encoding of `len(p)`, and with the
wrapper's memory minimum resized to `⌈(len(p)+1)/65536⌉` pages; for the
empty payload the custom payload is exactly four zero bytes. -/
theorem claim_c5_deployer (p : List Nat) (h : p.length < 2 ^ 32) :
    createCustomDeployer p =
      some ⟨replaceFirstMemorySec deployerWrapper.sections
          [⟨(p.length + 1 + 65535) / 65536, none, false⟩] ++
        [.custom ⟨ascii "deployer", p ++ le4 p.length⟩]⟩ ∧
    (p = [] → p ++ le4 p.length = [0, 0, 0, 0]) := by
  constructor
  · simp only [createCustomDeployer, deployerWrapper_fromBytes]
    have hm : deployerWrapper.memorySection = some [⟨1, none, false⟩] := rfl
    simp only [hm]
    norm_num [MemoryType.new, List.set, CustomSection.new]
    have hmod : p.length % 4294967296 = p.length := Nat.mod_eq_of_lt (by simpa using h)
    rw [hmod]
    rw [show p.length / 65536 + 1 = (p.length + 1 + 65535) / 65536 from by omega]
  · intro hp
    subst hp
    rfl

/-- Witness for C5 at the empty payload. -/
theorem claim_c5_deployer_witness :
    ([] : List Nat).length < 2 ^ 32 ∧
    createCustomDeployer [] =
      some ⟨replaceFirstMemorySec deployerWrapper.sections
          [⟨(([] : List Nat).length + 1 + 65535) / 65536, none, false⟩] ++
        [.custom ⟨ascii "deployer", [] ++ le4 ([] : List Nat).length⟩]⟩ :=
  ⟨by norm_num, (claim_c5_deployer [] (by norm_num)).1⟩

theorem findSome?_start_filter (l : List Section) :
    (l.filter fun s => match s with
      | .startSec _ => false
      | _ => true).findSome? (fun s => match s with
      | .startSec i => some i
      | _ => none) = none := by
  induction l with
  | nil => rfl
  | cons s l ih => cases s <;> simp [List.filter_cons, ih]

theorem clearStart_startSection (m : Module) :
    m.clearStartSection.startSection = none := by
  simpa [Module.clearStartSection, Module.startSection] using
    findSome?_start_filter m.sections

theorem clearStart_exportSection (m : Module) :
    m.clearStartSection.exportSection = m.exportSection := by
  obtain ⟨l⟩ := m
  simp only [Module.clearStartSection, Module.exportSection]
  induction l with
  | nil => rfl
  | cons s l ih => cases s <;> simp [List.filter_cons, ih]

theorem replaceFirstExport_exportSection :
    ∀ (l : List Section) (es es' : List ExportEntry),
      (Module.mk l).exportSection = some es →
      (Module.mk (replaceFirstExportSec l es')).exportSection = some es' := by
  intro l
  induction l with
  | nil => intro es es' h; simp [Module.exportSection] at h
  | cons s l ih =>
    intro es es' h
    cases s with
    | exportSec es0 => simp [replaceFirstExportSec, Module.exportSection]
    | _ =>
      simp only [Module.exportSection, List.findSome?_cons] at h ⊢
      exact ih es es' h

theorem findSome?_none_mem {α β : Type} (f : α → Option β) :
    ∀ l : List α, l.findSome? f = none → ∀ x ∈ l, f x = none := by
  intro l
  induction l with
  | nil => intro _ x hx; cases hx
  | cons a l ih =>
    intro h x hx
    rw [List.findSome?_cons] at h
    cases hf : f a with
    | some v => rw [hf] at h; cases h
    | none =>
      rw [hf] at h
      cases hx with
      | head => exact hf
      | tail _ hmem => exact ih h x hmem

theorem findSome?_insertIdx {α β : Type} (f : α → Option β) (x : α) (v : β)
    (hx : f x = some v) :
    ∀ (i : Nat) (l : List α), i ≤ l.length → (∀ y ∈ l, f y = none) →
      (l.insertIdx i x).findSome? f = some v := by
  intro i
  induction i with
  | zero =>
    intro l _ _
    simp [List.insertIdx, List.findSome?_cons, hx]
  | succ i ih =>
    intro l hi hall
    cases l with
    | nil => simp at hi
    | cons a l =>
      simp only [List.insertIdx_succ_cons, List.findSome?_cons]
      rw [hall a (by simp)]
      exact ih l (by simpa using hi) (fun y hy => hall y (by simp [hy]))

theorem findSome?_append_none {α β : Type} (f : α → Option β) :
    ∀ (l l2 : List α), (∀ y ∈ l, f y = none) →
      (l ++ l2).findSome? f = l2.findSome? f := by
  intro l
  induction l with
  | nil => intro l2 _; rfl
  | cons a l ih =>
    intro l2 hall
    simp only [List.cons_append, List.findSome?_cons]
    rw [hall a (by simp)]
    exact ih l2 (fun y hy => hall y (by simp [hy]))

theorem mem_set_self {α : Type} (v : α) :
    ∀ (l : List α) (i : Nat), i < l.length → v ∈ l.set i v := by
  intro l
  induction l with
  | nil => intro i h; simp at h
  | cons a l ih =>
    intro i h
    cases i with
    | zero => simp [List.set]
    | succ i =>
      simp only [List.set]
      exact List.mem_cons_of_mem _ (ih i (by simpa using h))

theorem section_order_seven (s : Section)
    (h : (match s with
      | Section.exportSec es => some es
      | _ => none) = (none : Option (List ExportEntry))) : ¬ s.order = 7 := by
  cases s <;> simp [Section.order] at h ⊢

theorem insertSection_export (m : Module) (es : List ExportEntry)
    (h : m.exportSection = none) :
    ∃ m2, m.insertSection (.exportSec es) = some m2 ∧
      m2.exportSection = some es := by
  have hall := findSome?_none_mem _ m.sections h
  have hguard : (m.sections.any fun t => t.order = (Section.exportSec es).order) = false := by
    simp only [List.any_eq_false]
    intro s hs
    have := section_order_seven s (hall s hs)
    simpa [Section.order] using this
  simp only [Module.insertSection, hguard, Bool.false_eq_true, if_false]
  cases hidx : m.sections.findIdx? fun t => (Section.exportSec es).order < t.order with
  | some i =>
    refine ⟨_, rfl, ?_⟩
    have hi := findIdx?_lt_length _ m.sections i hidx
    simp only [Module.exportSection]
    exact findSome?_insertIdx
      (fun s => match s with
        | Section.exportSec es => some es
        | _ => none)
      (Section.exportSec es) es rfl i m.sections (by omega) hall
  | none =>
    refine ⟨_, rfl, ?_⟩
    simp only [Module.exportSection]
    rw [findSome?_append_none _ m.sections [Section.exportSec es] hall]
    rfl

/-- C3: for every module with a start section holding function index
`f`, remapstart (both forms) reports change and yields a module without
a start section in which an export named `main` of kind function
pointing at `f` exists: an existing `main` export is replaced in place,
otherwise the entry is appended, and if no export section exists one is
created holding that single entry.  A module without a start section is
reported unchanged and left intact. -/
theorem claim_c3_remapstart (m : Module) :
    (m.startSection = none →
      remapStart m = some (false, m) ∧ remapStartTranslate m = some none) ∧
    (∀ f, m.startSection = some f →
      ∃ m2, remapStart m = some (true, m2) ∧
        remapStartTranslate m = some (some m2) ∧
        m2.startSection = none ∧
        (∃ es2, m2.exportSection = some es2 ∧
          ExportEntry.mk (ascii "main") (.function f) ∈ es2) ∧
        (∀ es, m.exportSection = some es →
          (∀ i, es.findIdx? (fun e => decide (e.field = ascii "main")) = some i →
            m2.exportSection = some (es.set i ⟨ascii "main", .function f⟩)) ∧
          (es.findIdx? (fun e => decide (e.field = ascii "main")) = none →
            m2.exportSection = some (es ++ [⟨ascii "main", .function f⟩]))) ∧
        (m.exportSection = none →
          m2.exportSection = some [⟨ascii "main", .function f⟩])) := by
  constructor
  · intro h
    constructor
    · simp [remapStart, h]
    · simp [remapStartTranslate, remapStart, h]
  · intro f hstart
    cases hexp : m.exportSection with
    | some es =>
      cases hidx : es.findIdx? fun e => decide (e.field = ascii "main") with
      | some i =>
        have hrom : remapOrExportMain m (ascii "main") f =
            some ⟨replaceFirstExportSec m.sections
              (es.set i ⟨ascii "main", .function f⟩)⟩ := by
          simp [remapOrExportMain, hexp, hidx, ExportEntry.new]
        refine ⟨(Module.mk (replaceFirstExportSec m.sections
            (es.set i ⟨ascii "main", .function f⟩))).clearStartSection,
          ?_, ?_, clearStart_startSection _, ?_, ?_, ?_⟩
        · simp only [remapStart, hstart, hrom]
        · simp only [remapStartTranslate, remapStart, hstart, hrom]
        · refine ⟨es.set i ⟨ascii "main", .function f⟩, ?_, ?_⟩
          · rw [clearStart_exportSection]
            exact replaceFirstExport_exportSection m.sections es _ hexp
          · have hi := findIdx?_lt_length _ es i hidx
            exact mem_set_self _ es i hi
        · intro es0 hes0
          injection hes0 with hes0
          subst hes0
          constructor
          · intro j hj
            rw [hidx] at hj
            injection hj with hj
            subst hj
            rw [clearStart_exportSection]
            exact replaceFirstExport_exportSection m.sections es _ hexp
          · intro hnone
            rw [hidx] at hnone
            exact Option.noConfusion hnone
        · intro hc
          exact Option.noConfusion hc
      | none =>
        have hrom : remapOrExportMain m (ascii "main") f =
            some ⟨replaceFirstExportSec m.sections
              (es ++ [⟨ascii "main", .function f⟩])⟩ := by
          simp [remapOrExportMain, hexp, hidx, ExportEntry.new]
        refine ⟨(Module.mk (replaceFirstExportSec m.sections
            (es ++ [⟨ascii "main", .function f⟩]))).clearStartSection,
          ?_, ?_, clearStart_startSection _, ?_, ?_, ?_⟩
        · simp only [remapStart, hstart, hrom]
        · simp only [remapStartTranslate, remapStart, hstart, hrom]
        · refine ⟨es ++ [⟨ascii "main", .function f⟩], ?_, by simp⟩
          rw [clearStart_exportSection]
          exact replaceFirstExport_exportSection m.sections es _ hexp
        · intro es0 hes0
          injection hes0 with hes0
          subst hes0
          constructor
          · intro j hj
            rw [hidx] at hj
            exact Option.noConfusion hj
          · intro _
            rw [clearStart_exportSection]
            exact replaceFirstExport_exportSection m.sections es _ hexp
        · intro hc
          exact Option.noConfusion hc
    | none =>
      obtain ⟨m2, hins, hexp2⟩ := insertSection_export m
        [⟨ascii "main", .function f⟩] hexp
      have hrom : remapOrExportMain m (ascii "main") f = some m2 := by
        simp only [remapOrExportMain, hexp, ExportEntry.new]
        exact hins
      refine ⟨m2.clearStartSection, ?_, ?_, clearStart_startSection _, ?_, ?_, ?_⟩
      · simp only [remapStart, hstart, hrom]
      · simp only [remapStartTranslate, remapStart, hstart, hrom]
      · refine ⟨[⟨ascii "main", .function f⟩], ?_, by simp⟩
        rw [clearStart_exportSection]
        exact hexp2
      · intro es0 hes0
        exact Option.noConfusion hes0
      · intro _
        rw [clearStart_exportSection]
        exact hexp2

/-- Witness for C3: a module whose start section points at index 1 and
which has no export section. -/
theorem claim_c3_remapstart_witness :
    (⟨[.startSec 1]⟩ : Module).startSection = some 1 ∧
    ∃ m2, remapStart ⟨[.startSec 1]⟩ = some (true, m2) ∧
      remapStartTranslate ⟨[.startSec 1]⟩ = some (some m2) ∧
      m2.startSection = none ∧
      (∃ es2, m2.exportSection = some es2 ∧
        ExportEntry.mk (ascii "main") (.function 1) ∈ es2) ∧
      (∀ es, (⟨[.startSec 1]⟩ : Module).exportSection = some es →
        (∀ i, es.findIdx? (fun e => decide (e.field = ascii "main")) = some i →
          m2.exportSection = some (es.set i ⟨ascii "main", .function 1⟩)) ∧
        (es.findIdx? (fun e => decide (e.field = ascii "main")) = none →
          m2.exportSection = some (es ++ [⟨ascii "main", .function 1⟩]))) ∧
      ((⟨[.startSec 1]⟩ : Module).exportSection = none →
        m2.exportSection = some [⟨ascii "main", .function 1⟩]) :=
  ⟨rfl, (claim_c3_remapstart ⟨[.startSec 1]⟩).2 1 rfl⟩

/-- A module with a type section, an import section holding one
function import, and an export section whose `main` export is a
function export at index 0 (an imported function), but with no function
section. -/
def c10m : Module :=
  ⟨[.typeSec [⟨[], none⟩],
    .importSec [⟨ascii "ethereum", ascii "useGas", .function 0⟩],
    .exportSec [⟨ascii "main", .function 0⟩, ⟨ascii "memory", .memory 0⟩]]⟩

/-- C10 counterexample: `c10m` satisfies every antecedent of the claim —
it has a type section, an import section with a function import, and its
`main` export is a function export whose index 0 refers to an imported
function (0 is below the function-import count 1) — yet
`validate` with the ewasm preset returns the verdict `Ok(false)` rather
than panicking, because without a function section `func_sig_by_index`
takes the early `Ok(None)` path and never subtracts. -/
theorem claim_c10_counterexample :
    c10m.typeSection = some [⟨[], none⟩] ∧
    c10m.importSection = some [⟨ascii "ethereum", ascii "useGas", .function 0⟩] ∧
    VerifyExports.funcImportSectionLen
      [⟨ascii "ethereum", ascii "useGas", .function 0⟩] = 1 ∧
    (∃ es, c10m.exportSection = some es ∧
      VerifyExports.funcExportIndexByName es (ascii "main") = some 0) ∧
    0 < VerifyExports.funcImportSectionLen
      [⟨ascii "ethereum", ascii "useGas", .function 0⟩] ∧
    verifyExportsEwasm.validate c10m = some false := by
  refine ⟨by decide, by decide, by decide,
    ⟨[⟨ascii "main", .function 0⟩, ⟨ascii "memory", .memory 0⟩], by decide, by decide⟩,
    by decide, by decide⟩

/-- C10 amended: with the additional premise that a function section is
present (and the total entry count fits in a `u32`), a module whose
`main` export is a function export referring to an imported function
makes `validate` with the ewasm preset panic (modelled as `none`): the
unsigned subtraction wraps and the function-section lookup lands out of
bounds. -/
theorem claim_c10_amended (m : Module) (ts : List FunctionType)
    (isec : List ImportEntry) (fs : List Nat) (es : List ExportEntry) (i : Nat)
    (hts : m.typeSection = some ts)
    (his : m.importSection = some isec)
    (hfs : m.functionSection = some fs)
    (hes : m.exportSection = some es)
    (hidx : VerifyExports.funcExportIndexByName es (ascii "main") = some i)
    (hlt : i < VerifyExports.funcImportSectionLen isec)
    (hsz : fs.length + VerifyExports.funcImportSectionLen isec ≤ 2 ^ 32) :
    verifyExportsEwasm.validate m = none := by
  have hk : VerifyExports.funcImportSectionLen isec < 2 ^ 32 :=
    Nat.mod_lt _ (by norm_num)
  have hsub : VerifyExports.sub32 i (VerifyExports.funcImportSectionLen isec) =
      i + 2 ^ 32 - VerifyExports.funcImportSectionLen isec := by
    have h232 : (2 : Nat) ^ 32 = 4294967296 := by norm_num
    simp only [VerifyExports.sub32, h232] at *
    omega
  have hge : fs.length ≤ VerifyExports.sub32 i (VerifyExports.funcImportSectionLen isec) := by
    omega
  have ftr : VerifyExports.funcTypeRef fs
      (VerifyExports.sub32 i (VerifyExports.funcImportSectionLen isec)) = none := by
    simp only [VerifyExports.funcTypeRef]
    exact List.get?_eq_none.mpr hge
  have hsig : VerifyExports.funcSigByIndex m i = none := by
    simp only [VerifyExports.funcSigByIndex, hfs, hts, his, ftr]
  have hhfe : VerifyExports.hasFuncExport m (ascii "main") ⟨[], none⟩ = none := by
    simp only [VerifyExports.hasFuncExport, hes, hidx, hsig]
  have hise : VerifyExports.isExported
      (.function (ascii "main") ⟨[], none⟩) m = none := by
    simp only [VerifyExports.isExported, hes, hhfe]
  simp only [VerifyExportsPass.validate, verifyExportsEwasm,
    VerifyExports.findNotExported, hise]

/-- A module like `c10m` but with an (empty) function section present. -/
def c10w : Module :=
  ⟨[.typeSec [⟨[], none⟩],
    .importSec [⟨ascii "ethereum", ascii "useGas", .function 0⟩],
    .functionSec [],
    .exportSec [⟨ascii "main", .function 0⟩, ⟨ascii "memory", .memory 0⟩]]⟩

/-- Witness for the amended C10 theorem at the concrete module `c10w`. -/
theorem claim_c10_amended_witness :
    verifyExportsEwasm.validate c10w = none :=
  claim_c10_amended c10w [⟨[], none⟩]
    [⟨ascii "ethereum", ascii "useGas", .function 0⟩] []
    [⟨ascii "main", .function 0⟩, ⟨ascii "memory", .memory 0⟩] 0
    rfl rfl rfl rfl (by decide) (by decide) (by decide)

/-- A configuration with one ruleset running `checkfloat` and then
`trimstartfunc` over `mod.wasm`. -/
def c2cfg : ChiselConfig :=
  [("r1", ⟨[("file", "mod.wasm")], [("checkfloat", ⟨[]⟩), ("trimstartfunc", ⟨[]⟩)]⟩)]

/-- An environment whose file system yields the empty module's bytes for
every path and whose snip back end always fails with `boom`. -/
def c2env : DriverEnv :=
  ⟨fun s => some s, fun _ => .ok [0, 97, 115, 109, 1, 0, 0, 0], fun bs => .ok bs,
   fun _ => none, fun _ _ => .error "boom"⟩

/-- C2 counterexample: the `checkfloat` pass returns the pass-level
error `NotFound` on the empty module (it has no code section), yet
`fire` does not transition to the `Error` state: the error is merely
recorded in the ruleset's results, the remainder of the ruleset still
runs (the `trimstartfunc` outcome follows it), and the driver finishes
`Done`. -/
theorem claim_c2_counterexample :
    checkFloatValidate ⟨[]⟩ = .error .notFound ∧
    ChiselDriver.fire c2env (ChiselDriver.new c2cfg) =
      some ⟨[], .done [⟨"r1",
        [.validator "checkfloat" (.error .notFound),
         .translator "trimstartfunc" (.ok false)], "mod.wasm", none⟩]⟩ :=
  ⟨rfl, rfl⟩

/-- C2 amended: only the `snip` pass escalates its pass-level error to a
driver-level `Internal` error carrying its identity; any other pass's
error — `checkfloat` shown as representative — is recorded in the
ruleset's results while execution continues with the next pass.  A
driver-level error does make the ruleset loop stop in the `Error` state,
keeping previously completed rulesets' results and the remaining
configuration, and the next `fire` call continues with the next
ruleset. -/
theorem claim_c2_amended (env : DriverEnv) (rr : RulesetResult) (wasm : Module)
    (mc : ModuleConfig) (rest : List (String × ModuleConfig))
    (prev : ChiselResult) (cfgRest : ChiselConfig)
    (name : String) (rs : Ruleset) (de : DriverError) (e : String) :
    (wasm.codeSection = none →
      runModules env rr wasm (("checkfloat", mc) :: rest) =
        runModules env
          { rr with results :=
              rr.results ++ [.validator "checkfloat" (.error .notFound)] }
          wasm rest) ∧
    (env.snipBackend snipDefaultOptions wasm.toBytes = .error e →
      runModules env rr wasm (("snip", mc) :: rest) =
        some (.error (.internal "snip" "Chisel module failed" e))) ∧
    (runRuleset env name rs = some (.error de) →
      fireGo env prev ((name, rs) :: cfgRest) = some ⟨cfgRest, .error de prev⟩ ∧
      ChiselDriver.fire env ⟨cfgRest, .error de prev⟩ = fireGo env prev cfgRest) := by
  refine ⟨?_, ?_, ?_⟩
  · intro h
    have hcf : checkFloatValidate wasm = .error .notFound := by
      simp only [checkFloatValidate, h]
    have hex : executeModule env "checkfloat" mc wasm =
        some (.ok (.validator "checkfloat" (.error .notFound), wasm)) := by
      have hr : executeModule env "checkfloat" mc wasm =
          some (.ok (.validator "checkfloat" (checkFloatValidate wasm), wasm)) := rfl
      rw [hr, hcf]
    have hdm : (ModuleResult.validator "checkfloat"
        (Except.error ModuleError.notFound)).didMutate = false := rfl
    simp only [runModules, hex, hdm, Bool.false_eq_true, if_false]
  · intro h
    have hst : snipTranslate env.snipBackend snipDefaultOptions wasm =
        .error (.custom e) := by
      simp only [snipTranslate, h]
    have hex : executeModule env "snip" mc wasm =
        some (.error (.internal "snip" "Chisel module failed" e)) := by
      have hr : executeModule env "snip" mc wasm =
          match snipTranslate env.snipBackend snipDefaultOptions wasm with
          | .error er => some (.error (.internal "snip" "Chisel module failed" er.message))
          | .ok (some newWasm) => some (.ok (.translator "snip" (.ok true), newWasm))
          | .ok none => some (.ok (.translator "snip" (.ok false), wasm)) := rfl
      rw [hr, hst]
      rfl
    simp only [runModules, hex]
  · intro h
    constructor
    · simp only [fireGo, h]
    · simp only [ChiselDriver.fire]

/-- Witness for the amended C2 theorem: the checkfloat error is recorded
and the loop continues; a failing snip back end aborts the ruleset with
an `Internal` error; a ruleset missing its `file` option stops the loop
in the `Error` state and re-entry continues with the remaining
configuration. -/
theorem claim_c2_amended_witness :
    (runModules c2env (RulesetResult.new "r1") ⟨[]⟩
        [("checkfloat", (⟨[]⟩ : ModuleConfig))] =
      runModules c2env
        ⟨"r1", [.validator "checkfloat" (.error .notFound)], "", none⟩ ⟨[]⟩ []) ∧
    (runModules c2env (RulesetResult.new "r1") ⟨[]⟩
        [("snip", (⟨[]⟩ : ModuleConfig))] =
      some (.error (.internal "snip" "Chisel module failed" "boom"))) ∧
    (fireGo c2env [] [("r2", ⟨[], []⟩)] =
      some ⟨[], .error (.missingRequiredField "r2" "file") []⟩) ∧
    (ChiselDriver.fire c2env ⟨[], .error (.missingRequiredField "r2" "file") []⟩ =
      fireGo c2env [] []) := by
  have h := claim_c2_amended c2env (RulesetResult.new "r1") ⟨[]⟩ ⟨[]⟩ [] [] []
    "r2" ⟨[], []⟩ (.missingRequiredField "r2" "file") "boom"
  exact ⟨h.1 rfl, h.2.1 rfl, (h.2.2 rfl).1, (h.2.2 rfl).2⟩

end Chisel
